import Mathlib

/-!
Per-user job statistics of the Slurm exporter (`users.go`)

A shallow embedding of `ParseUsersMetrics`, `NewUsersCollector` and
`UsersCollector.Collect`.

Modelling conventions.

* A Go `string` is a `List Char`: the development covers the inputs that are
  valid UTF-8.  The separators the code splits on (`\n`, `|`, `:`) are ASCII, so
  splitting the characters agrees with splitting the bytes.
* A `float64` is an `F64`: NaN, the two infinities, or a finite value held as
  a rational; the special values follow IEEE 754 and the sign of zero is not
  represented.  `F64.add64` and `F64.mul64` are the float64 operations: the
  exact result rounded to the nearest float64 (`F64.round64`), infinite on
  overflow.  `F64.add` and `F64.mul` leave the rounding out and are exact on
  finite values.
* The code is embedded twice, line for line the same: `processLine64` and
  `ParseUsersMetrics64` with the rounding operations, `processLine` and
  `ParseUsersMetrics` with the exact ones.  The exact embedding agrees with
  float64 wherever float64 is exact, which covers the statements about job
  counts (exact up to `2 ^ 53` lines), about adding zero and about signs; the
  statement about the sums and products of parsed values is made on the
  rounding embedding.
* The Go map `map[string]*UserJobMetrics` is an association list with one entry
  per key, in order of first insertion.  Go iterates a map in an unspecified
  order, so statements about the samples of several users are about
  membership; the samples of one user are sent in the order of the source.
* An index out of range (a run-time panic in Go) is `none`.
* The standard library is a parameter (`GoLib`): the value `strconv.ParseFloat`
  returns and the Unicode lower-case table for the code points above ASCII.
  The theorems hold for every such library; `goLib` is a concrete instance used
  to evaluate the code on concrete inputs.
-/

namespace SlurmUsers

/-! ## float64 -/

/-- A `float64` value: NaN, plus or minus infinity, or a finite value. -/
inductive F64 where
  | nan : F64
  | inf (neg : Bool) : F64
  | fin (q : ℚ) : F64
deriving DecidableEq

namespace F64

/-- The literal `0`. -/
def zero : F64 := fin 0

/-- The literal `1` (the increment of `x++`). -/
def one : F64 := fin 1

/-- IEEE addition without the rounding: exact on finite values (`add64` is the
operation that rounds). -/
def add : F64 → F64 → F64
  | nan, _ => nan
  | _, nan => nan
  | inf a, inf b => if a = b then inf a else nan
  | inf a, fin _ => inf a
  | fin _, inf b => inf b
  | fin p, fin q => fin (p + q)

/-- IEEE multiplication without the rounding: exact on finite values (`mul64`
is the operation that rounds). -/
def mul : F64 → F64 → F64
  | nan, _ => nan
  | _, nan => nan
  | inf a, inf b => inf (xor a b)
  | inf a, fin q => if q = 0 then nan else inf (xor a (decide (q < 0)))
  | fin p, inf b => if p = 0 then nan else inf (xor (decide (p < 0)) b)
  | fin p, fin q => fin (p * q)

/-- IEEE comparison `a < b`: false as soon as one side is NaN. -/
def lt : F64 → F64 → Bool
  | nan, _ => false
  | _, nan => false
  | inf true, inf true => false
  | inf true, _ => true
  | inf false, _ => false
  | fin _, inf b => !b
  | fin p, fin q => decide (p < q)

/-- Go's `a > b`. -/
def gt (a b : F64) : Bool := lt b a

/-- IEEE comparison `a <= b`: false as soon as one side is NaN. -/
def le : F64 → F64 → Bool
  | nan, _ => false
  | _, nan => false
  | inf true, _ => true
  | inf false, inf false => true
  | inf false, _ => false
  | fin _, inf b => !b
  | fin p, fin q => decide (p ≤ q)

/-- The integer nearest to `a / b`, for `b` positive; of two integers equally
near, the even one. -/
def roundHalfEven (a b : Nat) : Nat :=
  let f := a / b
  let r := a % b
  if 2 * r < b then f
  else if b < 2 * r then f + 1
  else if f % 2 = 0 then f else f + 1

/-- The exponent of the leading binary digit of `n`, for `n` positive and
`fuel` at least that exponent: the `e` with `2 ^ e <= n < 2 ^ (e + 1)`. -/
def log2Fuel : Nat → Nat → Nat
  | 0, _ => 0
  | fuel + 1, n => if n < 2 then 0 else log2Fuel fuel (n / 2) + 1

/-- The float64 nearest to the rational `q` (IEEE 754 binary64, rounding to
nearest, ties to the even significand): with `e` the exponent of `q`, not below
`-1022`, the multiple of `2 ^ (e - 52)` nearest to `q`; plus or minus infinity
when that multiple reaches `2 ^ 1024`.  Below `2 ^ (-1022)` the multiples are
those of `2 ^ (-1074)` (subnormal numbers). -/
def round64 (q : ℚ) : F64 :=
  if q = 0 then fin 0
  else
    let a := q.num.natAbs
    let b := q.den
    let e0 : Int := (log2Fuel a a : Int) - (log2Fuel b b : Int)
    let e : Int := if b * 2 ^ e0.toNat ≤ a * 2 ^ (-e0).toNat then e0 else e0 - 1
    let k : Int := max e (-1022) - 52
    let n := roundHalfEven (a * 2 ^ (-k).toNat) (b * 2 ^ k.toNat)
    let mag : ℚ := ((n * 2 ^ k.toNat : Nat) : ℚ) / ((2 ^ (-k).toNat : Nat) : ℚ)
    if (2 : ℚ) ^ 1024 ≤ mag then inf (decide (q < 0))
    else fin (if q < 0 then -mag else mag)

/-- Go's `a + b` on float64: IEEE addition, the sum of two finite values
rounded to the nearest float64. -/
def add64 : F64 → F64 → F64
  | nan, _ => nan
  | _, nan => nan
  | inf a, inf b => if a = b then inf a else nan
  | inf a, fin _ => inf a
  | fin _, inf b => inf b
  | fin p, fin q => round64 (p + q)

/-- Go's `a * b` on float64: IEEE multiplication, the product of two finite
values rounded to the nearest float64. -/
def mul64 : F64 → F64 → F64
  | nan, _ => nan
  | _, nan => nan
  | inf a, inf b => inf (xor a b)
  | inf a, fin q => if q = 0 then nan else inf (xor a (decide (q < 0)))
  | fin p, inf b => if p = 0 then nan else inf (xor (decide (p < 0)) b)
  | fin p, fin q => round64 (p * q)

end F64

/-! ## Standard library -/

/-- The outcome of `strconv.ParseFloat(s, 64)`: a value and no error, a syntax
error, or a range error (the literal is well formed but too large). -/
inductive ParseResult where
  | ok (v : F64) : ParseResult
  | syntaxErr : ParseResult
  | rangeErr (neg : Bool) : ParseResult
deriving DecidableEq

/-- The first result of `ParseFloat`, which is all the caller keeps
(`x, _ := strconv.ParseFloat(...)`): `0` with a syntax error, plus or minus
infinity with a range error. -/
def ParseResult.value : ParseResult → F64
  | ok v => v
  | syntaxErr => F64.zero
  | rangeErr neg => F64.inf neg

/-- The parts of the Go standard library the code calls that are tables or
numeric conversions. -/
structure GoLib where
  /-- The function `unicode.ToLower` on the code points above ASCII. -/
  lowerTable : Char → Char
  /-- The call `strconv.ParseFloat(s, 64)`. -/
  ParseFloat : List Char → ParseResult

/-- The function `unicode.ToLower` on one character: `A`..`Z` go to `a`..`z`, the other
ASCII characters stay, the rest follows the table. -/
def toLowerRune (lib : GoLib) (c : Char) : Char :=
  if c.val < 128 then c.toLower else lib.lowerTable c

/-- The function `strings.ToLower`. -/
def ToLower (lib : GoLib) (s : List Char) : List Char :=
  s.map (toLowerRune lib)

/-- The call `strings.Split(s, sep)` for a one-character separator: the pieces of `s`
between the occurrences of `sep`, one more than there are occurrences. -/
def Split (s : List Char) (sep : Char) : List (List Char) :=
  match s with
  | [] => [[]]
  | c :: cs =>
    if c = sep then [] :: Split cs sep
    else
      match Split cs sep with
      | [] => [[c]]
      | piece :: pieces => (c :: piece) :: pieces

/-- The call `strings.Contains(s, sep)` for a one-character `sep`. -/
def Contains (s : List Char) (sep : Char) : Bool :=
  s.contains sep

/-- The call `regexp.MustCompile("^" + pat).MatchString(s)` for a literal `pat`: `s`
starts with `pat`. -/
def MatchString (pat : List Char) (s : List Char) : Bool :=
  pat.isPrefixOf s

/-! ## Aggregation -/

/-- The counters of one user. -/
structure UserJobMetrics where
  pending : F64
  running : F64
  running_cpus : F64
  suspended : F64
  running_gpus : F64
deriving DecidableEq

/-- The composite literal `&UserJobMetrics{0, 0, 0, 0, 0}`. -/
def UserJobMetrics.zero : UserJobMetrics :=
  ⟨F64.zero, F64.zero, F64.zero, F64.zero, F64.zero⟩

/-- The map `users`. -/
abbrev UsersMap := List (List Char × UserJobMetrics)

/-- The map read `users[user]`. -/
def UsersMap.get (users : UsersMap) (user : List Char) : Option UserJobMetrics :=
  match users with
  | [] => none
  | (k, m) :: rest => if k = user then some m else UsersMap.get rest user

/-- The assignment `users[user] = m`. -/
def UsersMap.set (users : UsersMap) (user : List Char) (m : UserJobMetrics) : UsersMap :=
  match users with
  | [] => [(user, m)]
  | (k, v) :: rest =>
    if k = user then (k, m) :: rest else (k, v) :: UsersMap.set rest user m

/-- An update through the pointer `users[user]`, which the code only performs
on a key that is present. -/
def UsersMap.modify (users : UsersMap) (user : List Char)
    (f : UserJobMetrics → UserJobMetrics) : UsersMap :=
  match users.get user with
  | some m => users.set user (f m)
  | none => users

/-- The body of the loop over the lines (`users.go`, lines 57 to 89). -/
def processLine (lib : GoLib) (users : UsersMap) (line : List Char) : Option UsersMap :=
  if Contains line '|' then do
    let user ← (Split line '|')[1]?
    let users := if (users.get user).isSome then users else users.set user UserJobMetrics.zero
    let state ← (Split line '|')[2]?
    let state := ToLower lib state
    let cpus := (lib.ParseFloat (← (Split line '|')[3]?)).value
    let gres ← (Split line '|')[4]?
    let gres_slice := Split gres ':'
    let gpus_per_node ←
      if gres_slice.length > 1 then
        (gres_slice[2]?).map (fun seg => (lib.ParseFloat seg).value)
      else some F64.zero
    let nnodes := (lib.ParseFloat (← (Split line '|')[5]?)).value
    let gpus := F64.mul gpus_per_node nnodes
    if MatchString "pending".toList state then
      some (users.modify user (fun m => { m with pending := F64.add m.pending F64.one }))
    else if MatchString "running".toList state then
      let users := users.modify user (fun m => { m with running := F64.add m.running F64.one })
      let users := users.modify user (fun m => { m with running_cpus := F64.add m.running_cpus cpus })
      some (users.modify user (fun m => { m with running_gpus := F64.add m.running_gpus gpus }))
    else if MatchString "suspended".toList state then
      some (users.modify user (fun m => { m with suspended := F64.add m.suspended F64.one }))
    else some users
  else some users

/-- The function `ParseUsersMetrics`: the lines of the input are processed in
order, starting from the empty map. -/
def ParseUsersMetrics (lib : GoLib) (input : List Char) : Option UsersMap :=
  (Split input '\n').foldlM (processLine lib) []

/-- The body of the loop over the lines (`users.go`, lines 57 to 89), with the
float64 operations rounding as the machine does (`add64`, `mul64`). -/
def processLine64 (lib : GoLib) (users : UsersMap) (line : List Char) : Option UsersMap :=
  if Contains line '|' then do
    let user ← (Split line '|')[1]?
    let users := if (users.get user).isSome then users else users.set user UserJobMetrics.zero
    let state ← (Split line '|')[2]?
    let state := ToLower lib state
    let cpus := (lib.ParseFloat (← (Split line '|')[3]?)).value
    let gres ← (Split line '|')[4]?
    let gres_slice := Split gres ':'
    let gpus_per_node ←
      if gres_slice.length > 1 then
        (gres_slice[2]?).map (fun seg => (lib.ParseFloat seg).value)
      else some F64.zero
    let nnodes := (lib.ParseFloat (← (Split line '|')[5]?)).value
    let gpus := F64.mul64 gpus_per_node nnodes
    if MatchString "pending".toList state then
      some (users.modify user (fun m => { m with pending := F64.add64 m.pending F64.one }))
    else if MatchString "running".toList state then
      let users := users.modify user (fun m => { m with running := F64.add64 m.running F64.one })
      let users := users.modify user
        (fun m => { m with running_cpus := F64.add64 m.running_cpus cpus })
      some (users.modify user (fun m => { m with running_gpus := F64.add64 m.running_gpus gpus }))
    else if MatchString "suspended".toList state then
      some (users.modify user (fun m => { m with suspended := F64.add64 m.suspended F64.one }))
    else some users
  else some users

/-- The function `ParseUsersMetrics` with the rounding float64 operations. -/
def ParseUsersMetrics64 (lib : GoLib) (input : List Char) : Option UsersMap :=
  (Split input '\n').foldlM (processLine64 lib) []

/-! ## Publication -/

/-- A metric descriptor (`prometheus.Desc`), as `prometheus.NewDesc` receives
it: name, help text and the names of the variable labels. -/
structure Desc where
  fqName : String
  help : String
  variableLabels : List String
deriving DecidableEq

/-- The struct `UsersCollector`. -/
structure UsersCollector where
  pending : Desc
  running : Desc
  running_cpus : Desc
  suspended : Desc
  running_gpus : Desc
deriving DecidableEq

/-- The function `NewUsersCollector`. -/
def NewUsersCollector : UsersCollector :=
  let labels := ["user"]
  { pending := ⟨"slurm_user_jobs_pending", "Pending jobs for user", labels⟩,
    running := ⟨"slurm_user_jobs_running", "Running jobs for user", labels⟩,
    running_cpus := ⟨"slurm_user_cpus_running", "Running cpus for user", labels⟩,
    suspended := ⟨"slurm_user_jobs_suspended", "Suspended jobs for user", labels⟩,
    running_gpus := ⟨"slurm_user_gpus_running", "Running gpus for user", labels⟩ }

/-- A gauge sample, as `prometheus.MustNewConstMetric(desc, prometheus.GaugeValue,
value, labelValues...)` builds it.  Every call in `Collect` passes one label
value, the number of labels of the descriptors of `NewUsersCollector`. -/
structure Metric where
  desc : Desc
  value : F64
  labelValues : List (List Char)
deriving DecidableEq

/-- One round of the loop of `Collect` (`users.go`, lines 124 to 138): the
samples sent on the channel for the key `u`, in the order they are sent. -/
def collectUser (uc : UsersCollector) (um : UsersMap) (u : List Char) : List Metric :=
  match um.get u with
  | none => []
  | some m =>
    (if F64.gt m.pending F64.zero then [⟨uc.pending, m.pending, [u]⟩] else []) ++
    (if F64.gt m.running F64.zero then [⟨uc.running, m.running, [u]⟩] else []) ++
    (if F64.gt m.running_cpus F64.zero then [⟨uc.running_cpus, m.running_cpus, [u]⟩] else []) ++
    (if F64.gt m.suspended F64.zero then [⟨uc.suspended, m.suspended, [u]⟩] else []) ++
    (if F64.gt m.running_gpus F64.zero then [⟨uc.running_gpus, m.running_gpus, [u]⟩] else [])

/-- The loop of `Collect` over the keys of the map `um`: everything sent on
the channel. -/
def publish (uc : UsersCollector) (um : UsersMap) : List Metric :=
  (um.map Prod.fst).flatMap (collectUser uc um)

/-- The method `Collect`, on the bytes `data` that `UsersData()` returned: the
samples sent on the channel, or `none` when `ParseUsersMetrics` panics. -/
def Collect (lib : GoLib) (uc : UsersCollector) (data : List Char) : Option (List Metric) :=
  (ParseUsersMetrics lib data).map (publish uc)

/-! ## A concrete library -/

/-- The digits at the head of `s`, as a number and a count, and the rest. -/
def readDigits (s : List Char) : Nat × Nat × List Char :=
  let ds := s.takeWhile Char.isDigit
  (ds.foldl (fun acc c => 10 * acc + (c.toNat - 48)) 0, ds.length, s.dropWhile Char.isDigit)

/-- The exponent part of a decimal literal: nothing, or `e`/`E`, an optional
sign and at least one digit, up to the end of the string. -/
def readExponent (s : List Char) : Option Int :=
  match s with
  | [] => some 0
  | c :: rest =>
    if c = 'e' ∨ c = 'E' then
      let (neg, body) :=
        match rest with
        | '+' :: r => (false, r)
        | '-' :: r => (true, r)
        | r => (false, r)
      match readDigits body with
      | (e, n, []) => if n = 0 then none else some (if neg then - (e : Int) else (e : Int))
      | _ => none
    else none

/-- The magnitude of an unsigned decimal literal: digits with at most one
point and at least one digit, then the exponent part. -/
def readDecimal (s : List Char) : Option ℚ :=
  let (ip, ni, afterInt) := readDigits s
  let (fp, nf, afterFrac) :=
    match afterInt with
    | '.' :: r => readDigits r
    | r => (0, 0, r)
  if ni + nf = 0 then none
  else
    match readExponent afterFrac with
    | none => none
    | some e =>
      let mant : ℚ := ((ip * 10 ^ nf + fp : Nat) : ℚ) / ((10 ^ nf : Nat) : ℚ)
      some (if 0 ≤ e then mant * ((10 ^ e.toNat : Nat) : ℚ) else mant / ((10 ^ (-e).toNat : Nat) : ℚ))

/-- A model of `strconv.ParseFloat(s, 64)` on the decimal literals without
underscores and on the special values (`nan`, and `inf` or `infinity` with an
optional sign, in any letter case).  The value of a literal is rounded to the
nearest float64; a magnitude of at least `2^1024 - 2^970` rounds to infinity
and is a range error.  Hexadecimal literals and literals
with digit-separating underscores, which Go accepts, are outside this model: it
answers a syntax error for them, and nothing below evaluates it on one. -/
def parseFloatDecimal (s : List Char) : ParseResult :=
  let lower := s.map Char.toLower
  if lower = "nan".toList then .ok F64.nan
  else
    let (neg, body) :=
      match s with
      | '+' :: r => (false, r)
      | '-' :: r => (true, r)
      | r => (false, r)
    let lbody := body.map Char.toLower
    if lbody = "inf".toList ∨ lbody = "infinity".toList then .ok (F64.inf neg)
    else
      match readDecimal body with
      | none => .syntaxErr
      | some q =>
        match F64.round64 q with
        | .fin m => .ok (F64.fin (if neg then -m else m))
        | _ => .rangeErr neg

/-- A model of `unicode.ToLower` above ASCII that covers Latin-1 (the capitals
`U+00C0`..`U+00DE` except the multiplication sign go 32 up), the capital I with
dot above (to `i`) and the Kelvin sign (to `k`), and leaves the other
characters alone.  Nothing below evaluates it outside that range. -/
def latinLower (c : Char) : Char :=
  if c.toNat = 0x130 then 'i'
  else if c.toNat = 0x212A then 'k'
  else if 0xC0 ≤ c.toNat ∧ c.toNat ≤ 0xDE ∧ c.toNat ≠ 0xD7 then Char.ofNat (c.toNat + 32)
  else c

/-- The library used to evaluate the code on concrete inputs. -/
def goLib : GoLib := ⟨latinLower, parseFloatDecimal⟩

/-! ## Vocabulary of the statements -/

/-- Field `i` of a line, the fields being separated by `|`; the empty string
when the line has no field `i`. -/
def field (line : List Char) (i : Nat) : List Char :=
  (Split line '|').getD i []

/-- The lines of the input that contain `|`, in order. -/
def jobLines (input : List Char) : List (List Char) :=
  (Split input '\n').filter (fun l => Contains l '|')

/-- A line with at least six fields whose gres field (field 4) does not split
on `:` into exactly two segments. -/
def wellFormedLine (line : List Char) : Prop :=
  6 ≤ (Split line '|').length ∧ (Split (field line 4) ':').length ≠ 2

instance : DecidablePred wellFormedLine :=
  fun _ => inferInstanceAs (Decidable (_ ∧ _))

/-- An input all of whose lines containing `|` are well formed. -/
def wellFormed (input : List Char) : Prop :=
  ∀ l ∈ jobLines input, wellFormedLine l

instance : DecidablePred wellFormed :=
  fun input => inferInstanceAs (Decidable (∀ l ∈ jobLines input, wellFormedLine l))

/-- The lower-cased state (field 2) of the line starts with `pat`. -/
def stateMatches (lib : GoLib) (pat : String) (line : List Char) : Bool :=
  MatchString pat.toList (ToLower lib (field line 2))

/-- The number of lines among `lines` that contain `|`, have `u` as field 1 and
a lower-cased field 2 that starts with `pat`. -/
def countJobs (lib : GoLib) (pat : String) (u : List Char) (lines : List (List Char)) : Nat :=
  (lines.filter (fun l => Contains l '|' && decide (field l 1 = u) && stateMatches lib pat l)).length

/-- The counters of `u` in the map, all zero when `u` is not a key. -/
def counters (users : UsersMap) (u : List Char) : UserJobMetrics :=
  (users.get u).getD UserJobMetrics.zero

/-- The value the code computes for `cpus` on a line. -/
def lineCpus (lib : GoLib) (line : List Char) : F64 :=
  (lib.ParseFloat (field line 3)).value

/-- The value the code computes for `gpus_per_node` on a line whose gres field
does not have exactly two segments. -/
def lineGpusPerNode (lib : GoLib) (line : List Char) : F64 :=
  if (Split (field line 4) ':').length > 1 then
    (lib.ParseFloat ((Split (field line 4) ':').getD 2 [])).value
  else F64.zero

/-- The value the code computes for `gpus` on such a line. -/
def lineGpus (lib : GoLib) (line : List Char) : F64 :=
  F64.mul (lineGpusPerNode lib line) (lib.ParseFloat (field line 5)).value

/-- What a line that is processed without a panic does to the counters of its
user. -/
def lineEffect (lib : GoLib) (line : List Char) (m : UserJobMetrics) : UserJobMetrics :=
  if stateMatches lib "pending" line then
    { m with pending := F64.add m.pending F64.one }
  else if stateMatches lib "running" line then
    { m with running := F64.add m.running F64.one,
             running_cpus := F64.add m.running_cpus (lineCpus lib line),
             running_gpus := F64.add m.running_gpus (lineGpus lib line) }
  else if stateMatches lib "suspended" line then
    { m with suspended := F64.add m.suspended F64.one }
  else m


/-- What a line that is processed without a panic does to the counters of its
user when the float64 operations round (`processLine64`). -/
def lineEffect64 (lib : GoLib) (line : List Char) (m : UserJobMetrics) : UserJobMetrics :=
  if stateMatches lib "pending" line then
    { m with pending := F64.add64 m.pending F64.one }
  else if stateMatches lib "running" line then
    { m with running := F64.add64 m.running F64.one,
             running_cpus := F64.add64 m.running_cpus (lineCpus lib line),
             running_gpus := F64.add64 m.running_gpus
               (F64.mul64 (lineGpusPerNode lib line) (lib.ParseFloat (field line 5)).value) }
  else if stateMatches lib "suspended" line then
    { m with suspended := F64.add64 m.suspended F64.one }
  else m

/-! ## Splitting -/

theorem Split_ne_nil (s : List Char) (sep : Char) : Split s sep ≠ [] := by
  cases s with
  | nil => simp [Split]
  | cons c cs =>
    unfold Split
    split
    · simp
    · split <;> simp

theorem Split_length (s : List Char) (sep : Char) :
    (Split s sep).length = s.count sep + 1 := by
  induction s with
  | nil => simp [Split]
  | cons c cs ih =>
    unfold Split
    by_cases h : c = sep
    · subst h; simp [ih]
    · have hne := Split_ne_nil cs sep
      rw [if_neg h]
      cases hs : Split cs sep with
      | nil => exact absurd hs hne
      | cons p ps =>
        rw [hs] at ih
        simp only [List.length_cons] at ih ⊢
        rw [List.count_cons_of_ne (Ne.symm h)]
        exact ih

theorem Split_not_mem (s : List Char) (sep : Char) (h : sep ∉ s) : Split s sep = [s] := by
  induction s with
  | nil => simp [Split]
  | cons c cs ih =>
    have hc : c ≠ sep := fun e => h (by simp [e])
    have hcs : sep ∉ cs := fun e => h (List.mem_cons_of_mem _ e)
    unfold Split
    rw [if_neg hc, ih hcs]

theorem Split_append (a b : List Char) (sep : Char) (h : sep ∉ b) :
    Split (a ++ sep :: b) sep = Split a sep ++ [b] := by
  induction a with
  | nil => simp [Split, Split_not_mem b sep h]
  | cons c cs ih =>
    by_cases hc : c = sep
    · subst hc
      simp only [List.cons_append]
      rw [Split, if_pos rfl, ih]
      conv_rhs => rw [Split, if_pos rfl]
      rfl
    · have hne := Split_ne_nil cs sep
      simp only [List.cons_append]
      rw [Split, if_neg hc, ih]
      conv_rhs => rw [Split, if_neg hc]
      cases hs : Split cs sep with
      | nil => exact absurd hs hne
      | cons p ps => simp

theorem Contains_iff (s : List Char) (sep : Char) : Contains s sep = true ↔ sep ∈ s := by
  simp [Contains]


/-! ## The map -/

theorem get_set_self (users : UsersMap) (u : List Char) (m : UserJobMetrics) :
    (users.set u m).get u = some m := by
  induction users with
  | nil => simp [UsersMap.set, UsersMap.get]
  | cons e rest ih =>
    obtain ⟨k, v⟩ := e
    by_cases h : k = u
    · simp [UsersMap.set, UsersMap.get, h]
    · simp [UsersMap.set, UsersMap.get, h, ih]

theorem get_set_other (users : UsersMap) (u v : List Char) (m : UserJobMetrics) (hv : v ≠ u) :
    (users.set u m).get v = users.get v := by
  induction users with
  | nil => simp [UsersMap.set, UsersMap.get, Ne.symm hv]
  | cons e rest ih =>
    obtain ⟨k, w⟩ := e
    by_cases h : k = u
    · subst h
      simp [UsersMap.set, UsersMap.get, Ne.symm hv]
    · by_cases h2 : k = v
      · subst h2
        simp [UsersMap.set, UsersMap.get, h]
      · simp [UsersMap.set, UsersMap.get, h, h2, ih]

theorem get_modify_self (users : UsersMap) (u : List Char) (f : UserJobMetrics → UserJobMetrics) :
    (users.modify u f).get u = (users.get u).map f := by
  unfold UsersMap.modify
  cases h : users.get u with
  | none => simp [h]
  | some m => simp [get_set_self]

theorem get_modify_other (users : UsersMap) (u v : List Char)
    (f : UserJobMetrics → UserJobMetrics) (hv : v ≠ u) :
    (users.modify u f).get v = users.get v := by
  unfold UsersMap.modify
  cases h : users.get u with
  | none => rfl
  | some m => simp [get_set_other _ _ _ _ hv]

theorem mem_keys_iff (users : UsersMap) (u : List Char) :
    u ∈ List.map Prod.fst users ↔ (users.get u).isSome = true := by
  induction users with
  | nil => simp [UsersMap.get]
  | cons e rest ih =>
    obtain ⟨k, w⟩ := e
    rw [List.map_cons, List.mem_cons, ih]
    by_cases h : k = u
    · simp [UsersMap.get, h]
    · have h2 : ¬ u = k := fun e => h e.symm
      simp [UsersMap.get, h, h2]


/-! ## One line -/

theorem processLine_of_not_contains (lib : GoLib) (users : UsersMap) (line : List Char)
    (h : Contains line '|' = false) : processLine lib users line = some users := by
  simp [processLine, h]

theorem contains_of_two_fields (line : List Char) (h : 2 ≤ (Split line '|').length) :
    Contains line '|' = true := by
  rw [Split_length] at h
  rw [Contains_iff]
  exact List.count_pos_iff.mp (by omega)

theorem ensure_get_self (users : UsersMap) (user : List Char) :
    (if (users.get user).isSome = true then users
      else users.set user UserJobMetrics.zero).get user = some (counters users user) := by
  unfold counters
  cases h : users.get user with
  | none => simp [get_set_self]
  | some m => simp [h]

theorem ensure_get_other (users : UsersMap) (user v : List Char) (hv : v ≠ user) :
    (if (users.get user).isSome = true then users
      else users.set user UserJobMetrics.zero).get v = users.get v := by
  split
  · rfl
  · exact get_set_other _ _ _ _ hv

theorem field_of_fields (line : List Char)
    (f0 user state cpus gres nodes : List Char) (rest : List (List Char))
    (hs : Split line '|' = f0 :: user :: state :: cpus :: gres :: nodes :: rest) :
    field line 1 = user ∧ field line 2 = state ∧ field line 3 = cpus ∧ field line 4 = gres ∧
      field line 5 = nodes := by
  simp [field, hs]

theorem processLine_of_fields (lib : GoLib) (users : UsersMap) (line : List Char)
    (f0 user state cpus gres nodes : List Char) (rest : List (List Char))
    (hs : Split line '|' = f0 :: user :: state :: cpus :: gres :: nodes :: rest)
    (hg : (Split gres ':').length ≠ 2) :
    ∃ users', processLine lib users line = some users' ∧
      (∀ v, counters users' v =
        if v = user then lineEffect lib line (counters users v) else counters users v) ∧
      (∀ v, (users'.get v).isSome = ((users.get v).isSome || decide (v = user))) := by
  have hc : Contains line '|' = true := contains_of_two_fields line (by rw [hs]; simp)
  obtain ⟨-, h2, h3, h4, h5⟩ := field_of_fields line f0 user state cpus gres nodes rest hs
  have hb1 := ensure_get_self users user
  have hb2 := ensure_get_other users user
  simp only [processLine, hc, hs, List.getElem?_cons_succ, List.getElem?_cons_zero,
    Option.bind_eq_bind, Option.some_bind, Option.pure_def, Option.bind_some, ↓reduceIte]
  unfold lineEffect stateMatches lineCpus lineGpus lineGpusPerNode
  rw [h2, h3, h4, h5]
  generalize (if (users.get user).isSome = true then users
      else users.set user UserJobMetrics.zero) = base at hb1 hb2 ⊢
  by_cases hl : (Split gres ':').length > 1
  on_goal 1 =>
    have h3' : 2 < (Split gres ':').length := by omega
    simp only [hl, ↓reduceIte, List.getElem?_eq_getElem h3', Option.map_some', Option.some_bind,
      List.getD_eq_getElem?_getD, Option.getD_some]
  on_goal 2 =>
    simp only [hl, ↓reduceIte]
  all_goals
    by_cases hp : MatchString "pending".toList (ToLower lib state) = true <;>
    by_cases hr : MatchString "running".toList (ToLower lib state) = true <;>
    by_cases hsus : MatchString "suspended".toList (ToLower lib state) = true <;>
    simp only [hp, hr, hsus, Bool.false_eq_true, ↓reduceIte] <;>
    refine ⟨_, rfl, fun v => ?_, fun v => ?_⟩ <;>
    by_cases hv : v = user
  all_goals first
    | (subst hv; simp [counters, get_modify_self, hb1])
    | (simp [counters, get_modify_other _ _ _ _ hv, hb2 v hv, hv])


theorem fields_of_wellFormedLine (line : List Char) (h : wellFormedLine line) :
    ∃ f0 user state cpus gres nodes rest,
      Split line '|' = f0 :: user :: state :: cpus :: gres :: nodes :: rest ∧
      (Split gres ':').length ≠ 2 := by
  obtain ⟨h6, hg⟩ := h
  unfold field at hg
  rcases hs : Split line '|' with _ | ⟨f0, _ | ⟨f1, _ | ⟨f2, _ | ⟨f3, _ | ⟨f4, _ | ⟨f5, rest⟩⟩⟩⟩⟩⟩ <;>
    rw [hs] at h6 <;> simp at h6
  rw [hs] at hg
  exact ⟨f0, f1, f2, f3, f4, f5, rest, rfl, by simpa using hg⟩

theorem wellFormedLine_of_processLine (lib : GoLib) (users users' : UsersMap) (line : List Char)
    (hc : Contains line '|' = true) (h : processLine lib users line = some users') :
    wellFormedLine line := by
  unfold wellFormedLine field
  rcases hs : Split line '|' with _ | ⟨f0, _ | ⟨f1, _ | ⟨f2, _ | ⟨f3, _ | ⟨f4, _ | ⟨f5, rest⟩⟩⟩⟩⟩⟩ <;>
    simp only [processLine, hc, hs, List.getElem?_cons_succ, List.getElem?_cons_zero,
      List.getElem?_nil, Option.bind_eq_bind, Option.some_bind, Option.none_bind,
      Option.pure_def, Option.bind_some, ↓reduceIte] at h
  case cons.cons.cons.cons.cons.cons =>
    refine ⟨by simp, ?_⟩
    intro h2
    simp only [List.getD_cons_succ, List.getD_cons_zero] at h2
    have hnone : (Split f4 ':')[2]? = none := by
      rw [List.getElem?_eq_none_iff]; omega
    simp [h2, hnone] at h
  all_goals first
    | contradiction
    | (exfalso; split at h <;> simp at h)


/-! ## All the lines -/

theorem processLine_step (lib : GoLib) (users : UsersMap) (line : List Char)
    (hwf : wellFormedLine line) :
    ∃ users', processLine lib users line = some users' ∧
      (∀ v, counters users' v =
        if field line 1 = v then lineEffect lib line (counters users v) else counters users v) ∧
      (∀ v, (users'.get v).isSome = ((users.get v).isSome || decide (field line 1 = v))) := by
  obtain ⟨f0, user, state, cpus, gres, nodes, rest, hs, hg⟩ := fields_of_wellFormedLine line hwf
  obtain ⟨users', h1, h2, h3⟩ :=
    processLine_of_fields lib users line f0 user state cpus gres nodes rest hs hg
  have hu : field line 1 = user := (field_of_fields line f0 user state cpus gres nodes rest hs).1
  refine ⟨users', h1, fun v => ?_, fun v => ?_⟩
  · rw [h2 v, hu]
    by_cases hv : v = user
    · subst hv; simp
    · have hv' : ¬ user = v := fun e => hv e.symm
      simp [hv, hv']
  · rw [h3 v, hu]
    by_cases hv : v = user
    · subst hv; simp
    · have hv' : ¬ user = v := fun e => hv e.symm
      simp [hv, hv']

theorem foldlM_processLine_total (lib : GoLib) (lines : List (List Char)) :
    ∀ users : UsersMap, (∀ l ∈ lines, Contains l '|' = true → wellFormedLine l) →
      ∃ um, lines.foldlM (processLine lib) users = some um := by
  induction lines with
  | nil => intro users _; exact ⟨users, rfl⟩
  | cons l rest ih =>
    intro users hwf
    rw [List.foldlM_cons]
    by_cases hc : Contains l '|' = true
    · obtain ⟨users', h1, -, -⟩ := processLine_step lib users l (hwf l (by simp) hc)
      rw [h1]
      exact ih users' (fun l' hl' => hwf l' (List.mem_cons_of_mem _ hl'))
    · rw [processLine_of_not_contains lib users l (by simpa using hc)]
      exact ih users (fun l' hl' => hwf l' (List.mem_cons_of_mem _ hl'))

theorem foldlM_processLine_spec (lib : GoLib) (lines : List (List Char)) :
    ∀ users um : UsersMap, lines.foldlM (processLine lib) users = some um →
      (∀ l ∈ lines, Contains l '|' = true → wellFormedLine l) ∧
      (∀ v, counters um v =
        (lines.filter (fun l => Contains l '|' && decide (field l 1 = v))).foldl
          (fun m l => lineEffect lib l m) (counters users v)) ∧
      (∀ v, (um.get v).isSome =
        ((users.get v).isSome || lines.any (fun l => Contains l '|' && decide (field l 1 = v)))) := by
  induction lines with
  | nil =>
    intro users um h
    simp only [List.foldlM_nil, Option.pure_def, Option.some.injEq] at h
    subst h
    simp
  | cons l rest ih =>
    intro users um h
    rw [List.foldlM_cons] at h
    by_cases hc : Contains l '|' = true
    · cases hp : processLine lib users l with
      | none => rw [hp] at h; contradiction
      | some users' =>
        rw [hp] at h
        have hwf := wellFormedLine_of_processLine lib users users' l hc hp
        obtain ⟨users'', h1, h2, h3⟩ := processLine_step lib users l hwf
        rw [hp] at h1
        cases h1
        obtain ⟨i1, i2, i3⟩ := ih users' um h
        refine ⟨?_, fun v => ?_, fun v => ?_⟩
        · intro l' hl' hc'
          rcases List.mem_cons.mp hl' with rfl | hr
          · exact hwf
          · exact i1 l' hr hc'
        · rw [i2 v, h2 v]
          by_cases hv : field l 1 = v
          · simp [List.filter_cons, hc, hv]
          · simp [List.filter_cons, hc, hv]
        · rw [i3 v, h3 v]
          simp [hc, Bool.or_assoc]
    · have hc' : Contains l '|' = false := by simpa using hc
      rw [processLine_of_not_contains lib users l hc'] at h
      obtain ⟨i1, i2, i3⟩ := ih users um h
      refine ⟨?_, fun v => ?_, fun v => ?_⟩
      · intro l' hl' hcl
        rcases List.mem_cons.mp hl' with rfl | hr
        · exact absurd hcl hc
        · exact i1 l' hr hcl
      · rw [i2 v]; simp [List.filter_cons, hc']
      · rw [i3 v]; simp [hc']


theorem filter_jobLines (input : List Char) (v : List Char) :
    (Split input '\n').filter (fun l => Contains l '|' && decide (field l 1 = v)) =
      (jobLines input).filter (fun l => decide (field l 1 = v)) := by
  simp [jobLines, List.filter_filter, Bool.and_comm]

theorem ParseUsersMetrics_total (lib : GoLib) (input : List Char) (h : wellFormed input) :
    ∃ um, ParseUsersMetrics lib input = some um := by
  apply foldlM_processLine_total
  intro l hl hc
  exact h l (by simp [jobLines, hl, hc])

theorem ParseUsersMetrics_spec (lib : GoLib) (input : List Char) (um : UsersMap)
    (h : ParseUsersMetrics lib input = some um) :
    wellFormed input ∧
    (∀ v, counters um v =
      ((jobLines input).filter (fun l => decide (field l 1 = v))).foldl
        (fun m l => lineEffect lib l m) UserJobMetrics.zero) ∧
    (∀ v, (um.get v).isSome = (jobLines input).any (fun l => decide (field l 1 = v))) := by
  obtain ⟨h1, h2, h3⟩ := foldlM_processLine_spec lib (Split input '\n') [] um h
  refine ⟨?_, fun v => ?_, fun v => ?_⟩
  · intro l hl
    simp only [jobLines, List.mem_filter] at hl
    exact h1 l hl.1 hl.2
  · rw [h2 v, filter_jobLines]; rfl
  · rw [h3 v]
    simp [jobLines, UsersMap.get, List.any_filter]

theorem MatchString_pending_running (s : List Char)
    (h : MatchString "pending".toList s = true) : MatchString "running".toList s = false := by
  cases s with
  | nil => simp [MatchString, List.isPrefixOf]
  | cons c cs =>
    simp only [MatchString, String.toList, List.isPrefixOf, Bool.and_eq_true, beq_iff_eq] at h ⊢
    obtain ⟨rfl, -⟩ := h
    simp

theorem MatchString_pending_suspended (s : List Char)
    (h : MatchString "pending".toList s = true) : MatchString "suspended".toList s = false := by
  cases s with
  | nil => simp [MatchString, List.isPrefixOf]
  | cons c cs =>
    simp only [MatchString, String.toList, List.isPrefixOf, Bool.and_eq_true, beq_iff_eq] at h ⊢
    obtain ⟨rfl, -⟩ := h
    simp

theorem MatchString_running_suspended (s : List Char)
    (h : MatchString "running".toList s = true) : MatchString "suspended".toList s = false := by
  cases s with
  | nil => simp [MatchString, List.isPrefixOf]
  | cons c cs =>
    simp only [MatchString, String.toList, List.isPrefixOf, Bool.and_eq_true, beq_iff_eq] at h ⊢
    obtain ⟨rfl, -⟩ := h
    simp


theorem foldl_lineEffect_counts (lib : GoLib) (ls : List (List Char)) :
    ∀ (m : UserJobMetrics) (a b c : Nat), m.pending = F64.fin a → m.running = F64.fin b →
      m.suspended = F64.fin c →
      (ls.foldl (fun m l => lineEffect lib l m) m).pending =
          F64.fin ((a + (ls.filter (stateMatches lib "pending")).length : Nat) : ℚ) ∧
      (ls.foldl (fun m l => lineEffect lib l m) m).running =
          F64.fin ((b + (ls.filter (stateMatches lib "running")).length : Nat) : ℚ) ∧
      (ls.foldl (fun m l => lineEffect lib l m) m).suspended =
          F64.fin ((c + (ls.filter (stateMatches lib "suspended")).length : Nat) : ℚ) := by
  induction ls with
  | nil => intro m a b c ha hb hc; simp [ha, hb, hc]
  | cons l rest ih =>
    intro m a b c ha hb hc
    rw [List.foldl_cons]
    by_cases hp : stateMatches lib "pending" l = true
    · have hr : stateMatches lib "running" l = false := MatchString_pending_running _ hp
      have hs : stateMatches lib "suspended" l = false := MatchString_pending_suspended _ hp
      have := ih (lineEffect lib l m) (a + 1) b c
        (by simp [lineEffect, hp, ha, F64.add, F64.one]) (by simp [lineEffect, hp, hb])
        (by simp [lineEffect, hp, hc])
      simp only [List.filter_cons, hp, hr, hs, ↓reduceIte, List.length_cons, Bool.false_eq_true]
      rw [show a + ((rest.filter (stateMatches lib "pending")).length + 1)
        = a + 1 + (rest.filter (stateMatches lib "pending")).length by omega]
      exact this
    · have hp' : stateMatches lib "pending" l = false := by simpa using hp
      by_cases hr : stateMatches lib "running" l = true
      · have hs : stateMatches lib "suspended" l = false := MatchString_running_suspended _ hr
        have := ih (lineEffect lib l m) a (b + 1) c
          (by simp [lineEffect, hp', hr, ha]) (by simp [lineEffect, hp', hr, hb, F64.add, F64.one])
          (by simp [lineEffect, hp', hr, hc])
        simp only [List.filter_cons, hp', hr, hs, ↓reduceIte, List.length_cons, Bool.false_eq_true]
        rw [show b + ((rest.filter (stateMatches lib "running")).length + 1)
          = b + 1 + (rest.filter (stateMatches lib "running")).length by omega]
        exact this
      · have hr' : stateMatches lib "running" l = false := by simpa using hr
        by_cases hs : stateMatches lib "suspended" l = true
        · have := ih (lineEffect lib l m) a b (c + 1)
            (by simp [lineEffect, hp', hr', hs, ha]) (by simp [lineEffect, hp', hr', hs, hb])
            (by simp [lineEffect, hp', hr', hs, hc, F64.add, F64.one])
          simp only [List.filter_cons, hp', hr', hs, ↓reduceIte, List.length_cons,
            Bool.false_eq_true]
          rw [show c + ((rest.filter (stateMatches lib "suspended")).length + 1)
            = c + 1 + (rest.filter (stateMatches lib "suspended")).length by omega]
          exact this
        · have hs' : stateMatches lib "suspended" l = false := by simpa using hs
          have := ih (lineEffect lib l m) a b c
            (by simp [lineEffect, hp', hr', hs', ha]) (by simp [lineEffect, hp', hr', hs', hb])
            (by simp [lineEffect, hp', hr', hs', hc])
          simp only [List.filter_cons, hp', hr', hs', ↓reduceIte, Bool.false_eq_true]
          exact this

theorem countJobs_eq (lib : GoLib) (pat : String) (u : List Char) (input : List Char) :
    countJobs lib pat u (Split input '\n') =
      (((jobLines input).filter (fun l => decide (field l 1 = u))).filter
        (stateMatches lib pat)).length := by
  simp only [countJobs, jobLines, List.filter_filter]
  congr 1
  apply List.filter_congr
  intro l _
  cases Contains l '|' <;> cases stateMatches lib pat l <;> simp

theorem counters_of_get (um : UsersMap) (u : List Char) (m : UserJobMetrics)
    (h : um.get u = some m) : counters um u = m := by
  simp [counters, h]

/-- Claim C1.  On an input all of whose lines containing `|` have at least six
fields and a gres field that does not split into exactly two segments,
`ParseUsersMetrics` returns a mapping in which, for every user `u` it holds, the
pending counter is the number of lines containing `|` whose field 1 is `u` and
whose lower-cased field 2 starts with `pending`, and likewise the running and
suspended counters with `running` and `suspended`; the states `PENDING` and
`PENDING_OTHER` both start with `pending` once lower-cased. -/
theorem C1_job_counts (lib : GoLib) :
    (∀ input : List Char, wellFormed input →
      ∃ um, ParseUsersMetrics lib input = some um ∧
        ∀ u m, um.get u = some m →
          m.pending = F64.fin (countJobs lib "pending" u (Split input '\n') : ℚ) ∧
          m.running = F64.fin (countJobs lib "running" u (Split input '\n') : ℚ) ∧
          m.suspended = F64.fin (countJobs lib "suspended" u (Split input '\n') : ℚ)) ∧
    MatchString "pending".toList (ToLower lib "PENDING".toList) = true ∧
    MatchString "pending".toList (ToLower lib "PENDING_OTHER".toList) = true := by
  refine ⟨?_, by rfl, by rfl⟩
  intro input hwf
  obtain ⟨um, hum⟩ := ParseUsersMetrics_total lib input hwf
  refine ⟨um, hum, fun u m hm => ?_⟩
  obtain ⟨-, h2, -⟩ := ParseUsersMetrics_spec lib input um hum
  have hc := h2 u
  rw [counters_of_get um u m hm] at hc
  have := foldl_lineEffect_counts lib ((jobLines input).filter (fun l => decide (field l 1 = u)))
    UserJobMetrics.zero 0 0 0 (by simp [UserJobMetrics.zero, F64.zero])
    (by simp [UserJobMetrics.zero, F64.zero]) (by simp [UserJobMetrics.zero, F64.zero])
  rw [← hc] at this
  simpa [countJobs_eq] using this

/-- Witness of `C1_job_counts`: a snapshot of four jobs of two users, followed
by a blank line. -/
theorem C1_job_counts_witness :
    wellFormed "1|alice|PENDING|4|N/A|1\n2|alice|PENDING_OTHER|2|gpu:v100:1|1\n3|bob|RUNNING|8|gpu:v100:1|2\n4|alice|Suspended|1|N/A|1\n".toList ∧
    ∃ um, ParseUsersMetrics goLib
        "1|alice|PENDING|4|N/A|1\n2|alice|PENDING_OTHER|2|gpu:v100:1|1\n3|bob|RUNNING|8|gpu:v100:1|2\n4|alice|Suspended|1|N/A|1\n".toList = some um ∧
      ∀ u m, um.get u = some m →
        m.pending = F64.fin (countJobs goLib "pending" u (Split
          "1|alice|PENDING|4|N/A|1\n2|alice|PENDING_OTHER|2|gpu:v100:1|1\n3|bob|RUNNING|8|gpu:v100:1|2\n4|alice|Suspended|1|N/A|1\n".toList '\n') : ℚ) ∧
        m.running = F64.fin (countJobs goLib "running" u (Split
          "1|alice|PENDING|4|N/A|1\n2|alice|PENDING_OTHER|2|gpu:v100:1|1\n3|bob|RUNNING|8|gpu:v100:1|2\n4|alice|Suspended|1|N/A|1\n".toList '\n') : ℚ) ∧
        m.suspended = F64.fin (countJobs goLib "suspended" u (Split
          "1|alice|PENDING|4|N/A|1\n2|alice|PENDING_OTHER|2|gpu:v100:1|1\n3|bob|RUNNING|8|gpu:v100:1|2\n4|alice|Suspended|1|N/A|1\n".toList '\n') : ℚ) :=
  ⟨by decide, (C1_job_counts goLib).1 _ (by decide)⟩


theorem ParseUsersMetrics_append_line (lib : GoLib) (before line : List Char)
    (h : '\n' ∉ line) :
    ParseUsersMetrics lib (before ++ '\n' :: line) =
      (ParseUsersMetrics lib before).bind (fun users => processLine lib users line) := by
  unfold ParseUsersMetrics
  rw [Split_append before line '\n' h, List.foldlM_append]
  simp [List.foldlM_cons]

/-- Claim C2, as stated, fails: the line `1|alice|PENDING` contains `|` and has
three fields, and `ParseUsersMetrics` panics on it (the index 3 is out of
range) instead of returning a mapping. -/
theorem C2_counterexample :
    ParseUsersMetrics goLib "1|alice|PENDING".toList = none := by
  decide

/-- Claim C2, amended.  On every input all of whose lines containing `|` have at
least six fields and a gres field that does not split into exactly two
segments, `ParseUsersMetrics` returns a mapping, whatever the numeric fields
contain; the counters of each user are those obtained from zero by the effects
of that user's lines in order, computed with the values `cpus`,
`gpus_per_node` and `nnodes` of each line.  A field that `ParseFloat` rejects
with a syntax error does not make it fail and is read as 0: `cpus` is 0 for
such a cpus field, `gpus_per_node` is 0 for such a third gres segment (and for
a gres field of one segment), `nnodes` is 0 for such a node count; a cpus
numeral rejected with a range error is read as plus or minus infinity.  On an
input with a line that contains `|` and has fewer than six fields it panics. -/
theorem C2_returns_on_well_formed (lib : GoLib) (input : List Char) :
    (wellFormed input → ∃ um, ParseUsersMetrics lib input = some um ∧
      ∀ u, counters um u =
        ((jobLines input).filter (fun l => decide (field l 1 = u))).foldl
          (fun m l => lineEffect lib l m) UserJobMetrics.zero) ∧
    (∀ l : List Char,
      (lib.ParseFloat (field l 3) = .syntaxErr → lineCpus lib l = F64.zero) ∧
      (∀ neg, lib.ParseFloat (field l 3) = .rangeErr neg → lineCpus lib l = F64.inf neg) ∧
      ((Split (field l 4) ':').length = 1 → lineGpusPerNode lib l = F64.zero) ∧
      (2 < (Split (field l 4) ':').length →
        lib.ParseFloat ((Split (field l 4) ':').getD 2 []) = .syntaxErr →
        lineGpusPerNode lib l = F64.zero) ∧
      (lib.ParseFloat (field l 5) = .syntaxErr →
        (lib.ParseFloat (field l 5)).value = F64.zero ∧
        lineGpus lib l = F64.mul (lineGpusPerNode lib l) F64.zero)) ∧
    ((∃ l ∈ jobLines input, (Split l '|').length < 6) →
      ParseUsersMetrics lib input = none) := by
  refine ⟨?_, ?_, ?_⟩
  · intro hwf
    obtain ⟨um, hum⟩ := ParseUsersMetrics_total lib input hwf
    exact ⟨um, hum, (ParseUsersMetrics_spec lib input um hum).2.1⟩
  · intro l
    refine ⟨?_, ?_, ?_, ?_, ?_⟩
    · intro h; simp [lineCpus, h, ParseResult.value]
    · intro neg h; simp [lineCpus, h, ParseResult.value]
    · intro h; simp [lineGpusPerNode, h]
    · intro hlen h
      have h1 : (Split (field l 4) ':').length > 1 := by omega
      unfold lineGpusPerNode
      rw [if_pos h1, h]
      rfl
    · intro h
      exact ⟨by rw [h]; rfl, by simp [lineGpus, h, ParseResult.value]⟩
  · rintro ⟨l, hl, hlen⟩
    cases h : ParseUsersMetrics lib input with
    | none => rfl
    | some um =>
      have hwf := (ParseUsersMetrics_spec lib input um h).1 l hl
      exact absurd hwf.1 (by omega)

/-- Witness of `C2_returns_on_well_formed`: a snapshot with unparseable cpus,
GPU count and node count, an unknown state and an empty line, on which the
function returns, the running job of `alice` counting for 0 CPUs and 0 GPUs;
and a snapshot whose second line has two fields, on which it panics. -/
theorem C2_returns_on_well_formed_witness :
    (wellFormed "1|alice|RUNNING|abc|gpu:v100:x|\n\n2|bob|WEIRD||N/A|two".toList ∧
      ParseUsersMetrics goLib "1|alice|RUNNING|abc|gpu:v100:x|\n\n2|bob|WEIRD||N/A|two".toList =
        some [("alice".toList, ⟨.fin 0, .fin 1, .fin 0, .fin 0, .fin 0⟩),
          ("bob".toList, ⟨.fin 0, .fin 0, .fin 0, .fin 0, .fin 0⟩)] ∧
      ∃ um, ParseUsersMetrics goLib
          "1|alice|RUNNING|abc|gpu:v100:x|\n\n2|bob|WEIRD||N/A|two".toList = some um ∧
        ∀ u, counters um u =
          ((jobLines "1|alice|RUNNING|abc|gpu:v100:x|\n\n2|bob|WEIRD||N/A|two".toList).filter
              (fun l => decide (field l 1 = u))).foldl
            (fun m l => lineEffect goLib l m) UserJobMetrics.zero) ∧
    (goLib.ParseFloat (field "1|alice|RUNNING|abc|gpu:v100:x|".toList 3) = .syntaxErr ∧
      lineCpus goLib "1|alice|RUNNING|abc|gpu:v100:x|".toList = F64.zero) ∧
    ("2|bob".toList ∈ jobLines "1|alice|RUNNING|8|N/A|1\n2|bob".toList ∧
      (Split "2|bob".toList '|').length < 6 ∧
      ParseUsersMetrics goLib "1|alice|RUNNING|8|N/A|1\n2|bob".toList = none) :=
  ⟨⟨by decide, by decide!, (C2_returns_on_well_formed goLib _).1 (by decide)⟩,
    ⟨by decide,
      ((C2_returns_on_well_formed goLib []).2.1 "1|alice|RUNNING|abc|gpu:v100:x|".toList).1
        (by decide)⟩,
    by decide, by decide,
    (C2_returns_on_well_formed goLib "1|alice|RUNNING|8|N/A|1\n2|bob".toList).2.2
      ⟨"2|bob".toList, by decide, by decide⟩⟩

theorem processLine64_of_fields (lib : GoLib) (users : UsersMap) (line : List Char)
    (f0 user state cpus gres nodes : List Char) (rest : List (List Char))
    (hs : Split line '|' = f0 :: user :: state :: cpus :: gres :: nodes :: rest)
    (hg : (Split gres ':').length ≠ 2) :
    ∃ users', processLine64 lib users line = some users' ∧
      (∀ v, counters users' v =
        if v = user then lineEffect64 lib line (counters users v) else counters users v) ∧
      (∀ v, (users'.get v).isSome = ((users.get v).isSome || decide (v = user))) := by
  have hc : Contains line '|' = true := contains_of_two_fields line (by rw [hs]; simp)
  obtain ⟨-, h2, h3, h4, h5⟩ := field_of_fields line f0 user state cpus gres nodes rest hs
  have hb1 := ensure_get_self users user
  have hb2 := ensure_get_other users user
  simp only [processLine64, hc, hs, List.getElem?_cons_succ, List.getElem?_cons_zero,
    Option.bind_eq_bind, Option.some_bind, Option.pure_def, Option.bind_some, ↓reduceIte]
  unfold lineEffect64 stateMatches lineCpus lineGpusPerNode
  rw [h2, h3, h4, h5]
  generalize (if (users.get user).isSome = true then users
      else users.set user UserJobMetrics.zero) = base at hb1 hb2 ⊢
  by_cases hl : (Split gres ':').length > 1
  on_goal 1 =>
    have h3' : 2 < (Split gres ':').length := by omega
    simp only [hl, ↓reduceIte, List.getElem?_eq_getElem h3', Option.map_some', Option.some_bind,
      List.getD_eq_getElem?_getD, Option.getD_some]
  on_goal 2 =>
    simp only [hl, ↓reduceIte]
  all_goals
    by_cases hp : MatchString "pending".toList (ToLower lib state) = true <;>
    by_cases hr : MatchString "running".toList (ToLower lib state) = true <;>
    by_cases hsus : MatchString "suspended".toList (ToLower lib state) = true <;>
    simp only [hp, hr, hsus, Bool.false_eq_true, ↓reduceIte] <;>
    refine ⟨_, rfl, fun v => ?_, fun v => ?_⟩ <;>
    by_cases hv : v = user
  all_goals first
    | (subst hv; simp [counters, get_modify_self, hb1])
    | (simp [counters, get_modify_other _ _ _ _ hv, hb2 v hv, hv])

theorem ParseUsersMetrics64_append_line (lib : GoLib) (before line : List Char)
    (h : '\n' ∉ line) :
    ParseUsersMetrics64 lib (before ++ '\n' :: line) =
      (ParseUsersMetrics64 lib before).bind (fun users => processLine64 lib users line) := by
  unfold ParseUsersMetrics64
  rw [Split_append before line '\n' h, List.foldlM_append]
  simp [List.foldlM_cons]

theorem append_line_effect64 (lib : GoLib) (before line : List Char) (users : UsersMap)
    (f0 user state cpus gres nodes : List Char) (rest : List (List Char))
    (hb : ParseUsersMetrics64 lib before = some users) (hn : '\n' ∉ line)
    (hs : Split line '|' = f0 :: user :: state :: cpus :: gres :: nodes :: rest)
    (hg : (Split gres ':').length ≠ 2) :
    ∃ users', ParseUsersMetrics64 lib (before ++ '\n' :: line) = some users' ∧
      users'.get user = some (lineEffect64 lib line (counters users user)) ∧
      ∀ v, v ≠ user → users'.get v = users.get v := by
  obtain ⟨users', h1, h2, h3⟩ :=
    processLine64_of_fields lib users line f0 user state cpus gres nodes rest hs hg
  rw [ParseUsersMetrics64_append_line lib before line hn, hb, Option.some_bind]
  refine ⟨users', h1, ?_, ?_⟩
  · have hsome := h3 user
    simp only [decide_True, Bool.or_true] at hsome
    obtain ⟨m, hm⟩ := Option.isSome_iff_exists.mp hsome
    have hcm := h2 user
    simp only [counters, hm, Option.getD_some, if_pos rfl] at hcm
    rw [hm, hcm]
    rfl
  · intro v hv
    have hcv := h3 v
    have hcc := h2 v
    simp only [hv, decide_False, Bool.or_false, if_false] at hcv hcc
    unfold counters at hcc
    cases hu' : users'.get v with
    | none =>
      cases hu : users.get v with
      | none => rfl
      | some m => rw [hu', hu] at hcv; simp at hcv
    | some m' =>
      cases hu : users.get v with
      | none => rw [hu', hu] at hcv; simp at hcv
      | some m => rw [hu', hu] at hcc; simpa using hcc

/-- Claim C3, as stated, fails: float64 addition rounds.  After the running
line with cpus `0.1` the `running_cpus` of `alice` is the float64 of `0.1`;
the second running line has the cpus field `0.2`, read as the float64 of `0.2`,
and `running_cpus` becomes `0.30000000000000004` (`5404319552844596 / 2^54`),
which is not the sum of the two: the line has not added exactly `c`. -/
theorem C3_counterexample :
    ParseUsersMetrics64 goLib "1|alice|RUNNING|0.1|gpu:v100:1|1".toList =
      some [("alice".toList, ⟨.fin 0, .fin 1, .fin (3602879701896397 / 2 ^ 55), .fin 0, .fin 1⟩)] ∧
    goLib.ParseFloat "0.2".toList = .ok (.fin (3602879701896397 / 2 ^ 54)) ∧
    ParseUsersMetrics64 goLib ("1|alice|RUNNING|0.1|gpu:v100:1|1".toList ++ '\n' ::
        "2|alice|RUNNING|0.2|gpu:v100:1|1".toList) =
      some [("alice".toList, ⟨.fin 0, .fin 2, .fin (5404319552844596 / 2 ^ 54), .fin 0, .fin 2⟩)] ∧
    (5404319552844596 / 2 ^ 54 : ℚ) ≠ 3602879701896397 / 2 ^ 55 + 3602879701896397 / 2 ^ 54 := by
  refine ⟨by decide!, by decide!, by decide!, by norm_num⟩

/-- Claim C3, amended.  A line whose lower-cased state starts with `running`,
whose cpus field parses to `c`, whose node count parses to `n` and whose gres
field has at least three segments, the third parsing to `g`, appended to an
input on which `ParseUsersMetrics` returned `users`, makes it return a mapping
in which the line's user has 1 added to `running`, `c` to `running_cpus` and
the product of `g` and `n` to `running_gpus`, each sum and the product being
the float64 result (the exact result rounded to the nearest float64, plus or
minus infinity on overflow), from zero counters when the user is new; nothing
else is changed.  The single line `123|alice|RUNNING|8|gpu:v100:1|2` yields
`alice = {0, 1, 8, 0, 2}`. -/
theorem C3_running_line_float64 (lib : GoLib) :
    (∀ (before line : List Char) (users : UsersMap)
        (f0 user state cpus gres nodes : List Char) (rest : List (List Char))
        (seg0 seg1 seg2 : List Char) (segs : List (List Char)) (c g n : ℚ),
      ParseUsersMetrics64 lib before = some users → '\n' ∉ line →
      Split line '|' = f0 :: user :: state :: cpus :: gres :: nodes :: rest →
      MatchString "running".toList (ToLower lib state) = true →
      lib.ParseFloat cpus = .ok (.fin c) →
      Split gres ':' = seg0 :: seg1 :: seg2 :: segs →
      lib.ParseFloat seg2 = .ok (.fin g) →
      lib.ParseFloat nodes = .ok (.fin n) →
      ∃ users', ParseUsersMetrics64 lib (before ++ '\n' :: line) = some users' ∧
        users'.get user = some
          { pending := (counters users user).pending,
            running := F64.add64 (counters users user).running (F64.fin 1),
            running_cpus := F64.add64 (counters users user).running_cpus (F64.fin c),
            suspended := (counters users user).suspended,
            running_gpus := F64.add64 (counters users user).running_gpus
              (F64.round64 (g * n)) } ∧
        ∀ v, v ≠ user → users'.get v = users.get v) ∧
    (∀ p q : ℚ, F64.add64 (F64.fin p) (F64.fin q) = F64.round64 (p + q)) ∧
    (lib.ParseFloat "8".toList = .ok (.fin 8) → lib.ParseFloat "1".toList = .ok (.fin 1) →
      lib.ParseFloat "2".toList = .ok (.fin 2) →
      ParseUsersMetrics64 lib "123|alice|RUNNING|8|gpu:v100:1|2".toList =
        some [("alice".toList, ⟨.fin 0, .fin 1, .fin 8, .fin 0, .fin 2⟩)]) := by
  refine ⟨?_, fun _ _ => rfl, ?_⟩
  · intro before line users f0 user state cpus gres nodes rest seg0 seg1 seg2 segs c g n
      hb hn hs hr hc hg hg2 hnodes
    have hlen : (Split gres ':').length ≠ 2 := by rw [hg]; simp
    obtain ⟨users', h1, h2, h3⟩ :=
      append_line_effect64 lib before line users f0 user state cpus gres nodes rest hb hn hs hlen
    obtain ⟨-, f2, f3, f4, f5⟩ := field_of_fields line f0 user state cpus gres nodes rest hs
    refine ⟨users', h1, ?_, h3⟩
    have hp : stateMatches lib "pending" line = false := by
      cases hpp : stateMatches lib "pending" line with
      | false => rfl
      | true =>
        have := MatchString_pending_running _ hpp
        rw [f2, hr] at this
        contradiction
    have hr' : stateMatches lib "running" line = true := by
      unfold stateMatches; rw [f2]; exact hr
    rw [h2]
    simp [lineEffect64, hp, hr', lineCpus, lineGpusPerNode, f3, f4, f5, hc, hg, hg2,
      hnodes, ParseResult.value, F64.mul64, F64.one]
  · intro h8 h1 h2
    simp only [String.toList] at h8 h1 h2
    have r1 : F64.round64 1 = F64.fin 1 := by decide!
    have r2 : F64.round64 2 = F64.fin 2 := by decide!
    have r8 : F64.round64 8 = F64.fin 8 := by decide!
    simp [ParseUsersMetrics64, Split, processLine64, Contains, h8, h1, h2, ParseResult.value,
      MatchString, ToLower, toLowerRune, UsersMap.get, UsersMap.set, UsersMap.modify, F64.add64,
      F64.mul64, F64.one, F64.zero, UserJobMetrics.zero, List.isPrefixOf, r1, r2, r8]

/-- Witness of `C3_running_line_float64`: the job with `cpus=4`,
`gres=gpu:tesla:2` and `nodeCount=3`, after a snapshot in which its user has one
running job with 8 CPUs and 2 GPUs; it adds 4 CPUs and 6 GPUs. -/
theorem C3_running_line_float64_witness :
    ParseUsersMetrics64 goLib "1|carol|RUNNING|8|gpu:v100:1|2".toList =
      some [("carol".toList, ⟨.fin 0, .fin 1, .fin 8, .fin 0, .fin 2⟩)] ∧
    (F64.add64 (F64.fin 1) (F64.fin 1) = F64.fin 2 ∧
      F64.add64 (F64.fin 8) (F64.fin 4) = F64.fin 12 ∧
      F64.add64 (F64.fin 2) (F64.round64 (2 * 3)) = F64.fin 8) ∧
    ∃ users', ParseUsersMetrics64 goLib
        ("1|carol|RUNNING|8|gpu:v100:1|2".toList ++ '\n' :: "7|carol|running|4|gpu:tesla:2|3".toList)
          = some users' ∧
      users'.get "carol".toList = some
        { pending := (counters [("carol".toList, ⟨.fin 0, .fin 1, .fin 8, .fin 0, .fin 2⟩)]
            "carol".toList).pending,
          running := F64.add64
            (counters [("carol".toList, ⟨.fin 0, .fin 1, .fin 8, .fin 0, .fin 2⟩)]
              "carol".toList).running (F64.fin 1),
          running_cpus := F64.add64
            (counters [("carol".toList, ⟨.fin 0, .fin 1, .fin 8, .fin 0, .fin 2⟩)]
              "carol".toList).running_cpus (F64.fin 4),
          suspended := (counters [("carol".toList, ⟨.fin 0, .fin 1, .fin 8, .fin 0, .fin 2⟩)]
            "carol".toList).suspended,
          running_gpus := F64.add64
            (counters [("carol".toList, ⟨.fin 0, .fin 1, .fin 8, .fin 0, .fin 2⟩)]
              "carol".toList).running_gpus (F64.round64 (2 * 3)) } ∧
      ∀ v, v ≠ "carol".toList → users'.get v =
        UsersMap.get [("carol".toList, ⟨.fin 0, .fin 1, .fin 8, .fin 0, .fin 2⟩)] v :=
  ⟨by decide!, ⟨by decide!, by decide!, by decide!⟩,
    (C3_running_line_float64 goLib).1 "1|carol|RUNNING|8|gpu:v100:1|2".toList
      "7|carol|running|4|gpu:tesla:2|3".toList
      [("carol".toList, ⟨.fin 0, .fin 1, .fin 8, .fin 0, .fin 2⟩)]
      "7".toList "carol".toList "running".toList "4".toList "gpu:tesla:2".toList "3".toList []
      "gpu".toList "tesla".toList "2".toList [] 4 2 3
      (by decide!) (by decide) (by decide) (by decide) (by decide!) (by decide) (by decide!)
      (by decide!)⟩

/-- Claim C4 fails on the code at a gres field of exactly two segments: on the
line `1|alice|RUNNING|4|gpu:2|1` the guard `len(gres_slice) > 1` holds, the
read of `gres_slice[2]` is out of range and `ParseUsersMetrics` panics, for
every library, where the claim gives a per-node GPU count of 0. -/
theorem C4_two_segment_gres_panics (lib : GoLib) :
    ParseUsersMetrics lib "1|alice|RUNNING|4|gpu:2|1".toList = none := by
  simp [ParseUsersMetrics, Split, processLine, Contains]

/-- Claim C5 fails on the code at a pending line whose gres field has exactly
two segments: on `1|alice|PENDING|4|gpu:2|1` the read of `gres_slice[2]`,
which comes before the state is looked at, is out of range and
`ParseUsersMetrics` panics, for every library, where the claim has the pending
counter of `alice` go up by 1. -/
theorem C5_pending_line_two_segment_gres_panics (lib : GoLib) :
    ParseUsersMetrics lib "1|alice|PENDING|4|gpu:2|1".toList = none := by
  simp [ParseUsersMetrics, Split, processLine, Contains]

theorem append_line_effect (lib : GoLib) (before line : List Char) (users : UsersMap)
    (f0 user state cpus gres nodes : List Char) (rest : List (List Char))
    (hb : ParseUsersMetrics lib before = some users) (hn : '\n' ∉ line)
    (hs : Split line '|' = f0 :: user :: state :: cpus :: gres :: nodes :: rest)
    (hg : (Split gres ':').length ≠ 2) :
    ∃ users', ParseUsersMetrics lib (before ++ '\n' :: line) = some users' ∧
      users'.get user = some (lineEffect lib line (counters users user)) ∧
      ∀ v, v ≠ user → users'.get v = users.get v := by
  obtain ⟨users', h1, h2, h3⟩ :=
    processLine_of_fields lib users line f0 user state cpus gres nodes rest hs hg
  rw [ParseUsersMetrics_append_line lib before line hn, hb, Option.some_bind]
  refine ⟨users', h1, ?_, ?_⟩
  · have hsome := h3 user
    simp only [decide_True, Bool.or_true] at hsome
    obtain ⟨m, hm⟩ := Option.isSome_iff_exists.mp hsome
    have hcm := h2 user
    rw [counters_of_get users' user m hm, if_pos rfl] at hcm
    rw [hm, hcm]
  · intro v hv
    have hcv := h3 v
    have hcc := h2 v
    simp only [hv, decide_False, Bool.or_false, if_false] at hcv hcc
    unfold counters at hcc
    cases hu' : users'.get v with
    | none =>
      cases hu : users.get v with
      | none => rfl
      | some m => rw [hu', hu] at hcv; simp at hcv
    | some m' =>
      cases hu : users.get v with
      | none => rw [hu', hu] at hcv; simp at hcv
      | some m => rw [hu', hu] at hcc; simpa using hcc

/-- What the code does on a pending line whose gres field does not have
exactly two segments: appended to an input on which `ParseUsersMetrics`
returned `users`, it adds 1 to the pending counter of its user (from zero
counters when the user is new) and changes nothing else. -/
theorem pending_line_effect (lib : GoLib) (before line : List Char) (users : UsersMap)
    (f0 user state cpus gres nodes : List Char) (rest : List (List Char))
    (hb : ParseUsersMetrics lib before = some users) (hn : '\n' ∉ line)
    (hs : Split line '|' = f0 :: user :: state :: cpus :: gres :: nodes :: rest)
    (hg : (Split gres ':').length ≠ 2)
    (hp : MatchString "pending".toList (ToLower lib state) = true) :
    ∃ users', ParseUsersMetrics lib (before ++ '\n' :: line) = some users' ∧
      users'.get user = some
        { counters users user with
          pending := F64.add (counters users user).pending (F64.fin 1) } ∧
      ∀ v, v ≠ user → users'.get v = users.get v := by
  obtain ⟨users', h1, h2, h3⟩ :=
    append_line_effect lib before line users f0 user state cpus gres nodes rest hb hn hs hg
  refine ⟨users', h1, ?_, h3⟩
  have f2 := (field_of_fields line f0 user state cpus gres nodes rest hs).2.1
  have hp' : stateMatches lib "pending" line = true := by
    unfold stateMatches; rw [f2]; exact hp
  rw [h2]
  simp [lineEffect, hp', F64.one]

/-! ## Publication -/

theorem mem_collectUser (uc : UsersCollector) (um : UsersMap) (u : List Char) (s : Metric) :
    s ∈ collectUser uc um u ↔ ∃ m, um.get u = some m ∧
      ((F64.gt m.pending F64.zero = true ∧ s = ⟨uc.pending, m.pending, [u]⟩) ∨
       (F64.gt m.running F64.zero = true ∧ s = ⟨uc.running, m.running, [u]⟩) ∨
       (F64.gt m.running_cpus F64.zero = true ∧ s = ⟨uc.running_cpus, m.running_cpus, [u]⟩) ∨
       (F64.gt m.suspended F64.zero = true ∧ s = ⟨uc.suspended, m.suspended, [u]⟩) ∨
       (F64.gt m.running_gpus F64.zero = true ∧ s = ⟨uc.running_gpus, m.running_gpus, [u]⟩)) := by
  unfold collectUser
  cases h : um.get u with
  | none => simp
  | some m =>
    simp only [List.mem_append, Option.some.injEq, exists_eq_left']
    constructor
    · rintro ((((h1 | h1) | h1) | h1) | h1) <;> split at h1 <;> simp_all
    · rintro (⟨h1, rfl⟩ | ⟨h1, rfl⟩ | ⟨h1, rfl⟩ | ⟨h1, rfl⟩ | ⟨h1, rfl⟩) <;> simp [h1]

theorem mem_publish (uc : UsersCollector) (um : UsersMap) (s : Metric) :
    s ∈ publish uc um ↔ ∃ u, s ∈ collectUser uc um u := by
  unfold publish
  rw [List.mem_flatMap]
  constructor
  · rintro ⟨u, -, hs⟩; exact ⟨u, hs⟩
  · rintro ⟨u, hs⟩
    refine ⟨u, ?_, hs⟩
    rw [mem_keys_iff]
    obtain ⟨m, hm, -⟩ := (mem_collectUser uc um u s).mp hs
    simp [hm]


theorem lineEffect_of_unmatched (lib : GoLib) (line : List Char) (m : UserJobMetrics)
    (hp : stateMatches lib "pending" line = false) (hr : stateMatches lib "running" line = false)
    (hs : stateMatches lib "suspended" line = false) : lineEffect lib line m = m := by
  simp [lineEffect, hp, hr, hs]

theorem foldl_lineEffect_of_unmatched (lib : GoLib) (ls : List (List Char)) (m : UserJobMetrics)
    (h : ∀ l ∈ ls, stateMatches lib "pending" l = false ∧ stateMatches lib "running" l = false ∧
      stateMatches lib "suspended" l = false) :
    ls.foldl (fun m l => lineEffect lib l m) m = m := by
  induction ls generalizing m with
  | nil => rfl
  | cons l rest ih =>
    obtain ⟨hp, hr, hs⟩ := h l (by simp)
    rw [List.foldl_cons, lineEffect_of_unmatched lib l m hp hr hs]
    exact ih m (fun l' hl' => h l' (List.mem_cons_of_mem _ hl'))

theorem collectUser_of_zero (uc : UsersCollector) (um : UsersMap) (u : List Char)
    (h : um.get u = some UserJobMetrics.zero) : collectUser uc um u = [] := by
  simp [collectUser, h, UserJobMetrics.zero, F64.gt, F64.lt, F64.zero]

theorem labelValues_of_mem_collectUser (uc : UsersCollector) (um : UsersMap) (u : List Char)
    (s : Metric) (h : s ∈ collectUser uc um u) : s.labelValues = [u] := by
  obtain ⟨m, -, h1⟩ := (mem_collectUser uc um u s).mp h
  rcases h1 with ⟨-, rfl⟩ | ⟨-, rfl⟩ | ⟨-, rfl⟩ | ⟨-, rfl⟩ | ⟨-, rfl⟩ <;> rfl

/-- Claim C6.  A line whose lower-cased state starts with none of `pending`,
`running`, `suspended` changes no counter of any user: appended to an input on
which `ParseUsersMetrics` returned `users`, it makes the function return as soon
as the line is well formed, and whenever the function returns, every user's
counters are those of `users` (a user who is new gets zero counters).  Hence a
user all of whose lines are such lines has an entry whose five counters are 0,
and `Collect` emits no sample labelled with that user.  The states `completed`,
`cancelled` and `failed` are such states. -/
theorem C6_unmatched_state (lib : GoLib) :
    (∀ (before line : List Char) (users : UsersMap),
      ParseUsersMetrics lib before = some users → '\n' ∉ line →
      stateMatches lib "pending" line = false → stateMatches lib "running" line = false →
      stateMatches lib "suspended" line = false →
      (wellFormedLine line →
        ∃ users', ParseUsersMetrics lib (before ++ '\n' :: line) = some users') ∧
      ∀ users', ParseUsersMetrics lib (before ++ '\n' :: line) = some users' →
        ∀ v, counters users' v = counters users v) ∧
    (∀ (input : List Char) (um : UsersMap) (u : List Char),
      ParseUsersMetrics lib input = some um →
      (∃ l ∈ jobLines input, field l 1 = u) →
      (∀ l ∈ jobLines input, field l 1 = u →
        stateMatches lib "pending" l = false ∧ stateMatches lib "running" l = false ∧
        stateMatches lib "suspended" l = false) →
      um.get u = some UserJobMetrics.zero ∧
      ∀ uc : UsersCollector, ∃ samples, Collect lib uc input = some samples ∧
        ∀ s ∈ samples, s.labelValues ≠ [u]) ∧
    (∀ st ∈ ["completed".toList, "cancelled".toList, "failed".toList],
      ∀ pat ∈ ["pending".toList, "running".toList, "suspended".toList],
        MatchString pat (ToLower lib st) = false) := by
  refine ⟨?_, ?_, ?_⟩
  · intro before line users hb hn hp hr hs
    rw [ParseUsersMetrics_append_line lib before line hn, hb, Option.some_bind]
    constructor
    · intro hwf
      obtain ⟨users', h1, -, -⟩ := processLine_step lib users line hwf
      exact ⟨users', h1⟩
    · intro users' h v
      by_cases hc : Contains line '|' = true
      · have hwf := wellFormedLine_of_processLine lib users users' line hc h
        obtain ⟨users'', h1, h2, -⟩ := processLine_step lib users line hwf
        rw [h] at h1
        cases h1
        rw [h2 v, lineEffect_of_unmatched lib line _ hp hr hs]
        simp
      · rw [processLine_of_not_contains lib users line (by simpa using hc)] at h
        cases h
        rfl
  · intro input um u hum hex hall
    obtain ⟨-, h2, h3⟩ := ParseUsersMetrics_spec lib input um hum
    have hsome : (um.get u).isSome = true := by
      rw [h3 u]
      obtain ⟨l, hl, hlu⟩ := hex
      exact List.any_eq_true.mpr ⟨l, hl, by simp [hlu]⟩
    obtain ⟨m, hm⟩ := Option.isSome_iff_exists.mp hsome
    have hz : m = UserJobMetrics.zero := by
      rw [← counters_of_get um u m hm, h2 u]
      apply foldl_lineEffect_of_unmatched
      intro l hl
      simp only [List.mem_filter, decide_eq_true_eq] at hl
      exact hall l hl.1 hl.2
    subst hz
    refine ⟨hm, fun uc => ⟨publish uc um, by simp [Collect, hum], fun s hs hlab => ?_⟩⟩
    obtain ⟨u', hu'⟩ := (mem_publish uc um s).mp hs
    have := labelValues_of_mem_collectUser uc um u' s hu'
    rw [hlab] at this
    have hu : u' = u := by simpa using this.symm
    subst hu
    rw [collectUser_of_zero uc um u' hm] at hu'
    simp at hu'
  · intro st hst pat hpat
    simp only [List.mem_cons, List.mem_singleton, List.not_mem_nil, or_false] at hst hpat
    rcases hst with rfl | rfl | rfl <;> rcases hpat with rfl | rfl | rfl <;> rfl

/-- Witness of `C6_unmatched_state`: a completed job of `bob` after a running
job of `bob`, and a snapshot in which `carol` has only a completed and a failed
job. -/
theorem C6_unmatched_state_witness :
    (∃ users', ParseUsersMetrics goLib
        ("1|bob|RUNNING|8|N/A|1".toList ++ '\n' :: "2|bob|COMPLETED|4|N/A|1".toList)
          = some users' ∧
      ∀ v, counters users' v =
        counters [("bob".toList, ⟨.fin 0, .fin 1, .fin 8, .fin 0, .fin 0⟩)] v) ∧
    (UsersMap.get [("carol".toList, UserJobMetrics.zero),
        ("bob".toList, ⟨.fin 0, .fin 1, .fin 8, .fin 0, .fin 0⟩)] "carol".toList
        = some UserJobMetrics.zero ∧
      ∀ uc : UsersCollector, ∃ samples, Collect goLib uc
          "1|carol|COMPLETED|4|N/A|1\n2|bob|RUNNING|8|N/A|1\n3|carol|FAILED|2|N/A|1".toList
            = some samples ∧
        ∀ s ∈ samples, s.labelValues ≠ ["carol".toList]) :=
  have h := (C6_unmatched_state goLib).1 "1|bob|RUNNING|8|N/A|1".toList
      "2|bob|COMPLETED|4|N/A|1".toList
      [("bob".toList, ⟨.fin 0, .fin 1, .fin 8, .fin 0, .fin 0⟩)]
      (by decide!) (by decide) (by decide) (by decide) (by decide)
  ⟨(h.1 (by decide)).imp (fun users' hu => ⟨hu, h.2 users' hu⟩),
    (C6_unmatched_state goLib).2.1
      "1|carol|COMPLETED|4|N/A|1\n2|bob|RUNNING|8|N/A|1\n3|carol|FAILED|2|N/A|1".toList
      [("carol".toList, UserJobMetrics.zero),
        ("bob".toList, ⟨.fin 0, .fin 1, .fin 8, .fin 0, .fin 0⟩)] "carol".toList
      (by decide!) (by decide) (by decide)⟩


/-- Claim C7.  For every mapping `um`, user `u` and value `v`, and for each of
the five counters: `Collect` sends the sample with that counter's descriptor,
the label value `u` and the value `v` if and only if `u` is a key of `um`, the
counter of `u` is strictly greater than zero and `v` is the counter's value. -/
theorem C7_sample_iff_positive (um : UsersMap) (u : List Char) (v : F64) :
    ((⟨NewUsersCollector.pending, v, [u]⟩ : Metric) ∈ publish NewUsersCollector um ↔
      ∃ m, um.get u = some m ∧ F64.gt m.pending F64.zero = true ∧ v = m.pending) ∧
    ((⟨NewUsersCollector.running, v, [u]⟩ : Metric) ∈ publish NewUsersCollector um ↔
      ∃ m, um.get u = some m ∧ F64.gt m.running F64.zero = true ∧ v = m.running) ∧
    ((⟨NewUsersCollector.running_cpus, v, [u]⟩ : Metric) ∈ publish NewUsersCollector um ↔
      ∃ m, um.get u = some m ∧ F64.gt m.running_cpus F64.zero = true ∧ v = m.running_cpus) ∧
    ((⟨NewUsersCollector.suspended, v, [u]⟩ : Metric) ∈ publish NewUsersCollector um ↔
      ∃ m, um.get u = some m ∧ F64.gt m.suspended F64.zero = true ∧ v = m.suspended) ∧
    ((⟨NewUsersCollector.running_gpus, v, [u]⟩ : Metric) ∈ publish NewUsersCollector um ↔
      ∃ m, um.get u = some m ∧ F64.gt m.running_gpus F64.zero = true ∧ v = m.running_gpus) := by
  refine ⟨?_, ?_, ?_, ?_, ?_⟩ <;>
  · rw [mem_publish]
    constructor
    · rintro ⟨u', hu'⟩
      obtain ⟨m, hm, h⟩ := (mem_collectUser _ _ _ _).mp hu'
      simp only [NewUsersCollector, Metric.mk.injEq, Desc.mk.injEq, List.cons.injEq, and_true,
        String.reduceEq, false_and, and_false, or_false, false_or, true_and] at h
      obtain ⟨hgt, rfl, rfl⟩ := h
      exact ⟨m, hm, hgt, rfl⟩
    · rintro ⟨m, hm, hgt, rfl⟩
      refine ⟨u, (mem_collectUser _ _ _ _).mpr ⟨m, hm, ?_⟩⟩
      simp [hgt]


theorem ParseUsersMetrics_alice (lib : GoLib)
    (h8 : lib.ParseFloat "8".toList = .ok (.fin 8))
    (h1 : lib.ParseFloat "1".toList = .ok (.fin 1))
    (h2 : lib.ParseFloat "2".toList = .ok (.fin 2)) :
    ParseUsersMetrics lib "123|alice|RUNNING|8|gpu:v100:1|2".toList =
      some [("alice".toList, ⟨.fin 0, .fin 1, .fin 8, .fin 0, .fin 2⟩)] := by
  simp only [String.toList] at h8 h1 h2
  simp [ParseUsersMetrics, Split, processLine, Contains, h8, h1, h2, ParseResult.value,
    MatchString, ToLower, toLowerRune, UsersMap.get, UsersMap.set, UsersMap.modify, F64.add,
    F64.mul, F64.one, F64.zero, UserJobMetrics.zero, List.isPrefixOf]

/-- Claim C8.  With a library that reads `8`, `1` and `2` as those numbers, the
samples `Collect` publishes for the snapshot `123|alice|RUNNING|8|gpu:v100:1|2`
are exactly `slurm_user_jobs_running{user="alice"} = 1`,
`slurm_user_cpus_running{user="alice"} = 8` and
`slurm_user_gpus_running{user="alice"} = 2`: there is no sample for
`slurm_user_jobs_pending` or `slurm_user_jobs_suspended`. -/
theorem C8_alice_samples (lib : GoLib)
    (h8 : lib.ParseFloat "8".toList = .ok (.fin 8))
    (h1 : lib.ParseFloat "1".toList = .ok (.fin 1))
    (h2 : lib.ParseFloat "2".toList = .ok (.fin 2)) :
    Collect lib NewUsersCollector "123|alice|RUNNING|8|gpu:v100:1|2".toList =
      some [⟨⟨"slurm_user_jobs_running", "Running jobs for user", ["user"]⟩, .fin 1,
              ["alice".toList]⟩,
            ⟨⟨"slurm_user_cpus_running", "Running cpus for user", ["user"]⟩, .fin 8,
              ["alice".toList]⟩,
            ⟨⟨"slurm_user_gpus_running", "Running gpus for user", ["user"]⟩, .fin 2,
              ["alice".toList]⟩] := by
  rw [Collect, ParseUsersMetrics_alice lib h8 h1 h2]
  simp [publish, collectUser, UsersMap.get, NewUsersCollector, F64.gt, F64.lt, F64.zero]

/-- Witness of `C8_alice_samples`, with the concrete library. -/
theorem C8_alice_samples_witness :
    (goLib.ParseFloat "8".toList = .ok (.fin 8) ∧ goLib.ParseFloat "1".toList = .ok (.fin 1) ∧
      goLib.ParseFloat "2".toList = .ok (.fin 2)) ∧
    Collect goLib NewUsersCollector "123|alice|RUNNING|8|gpu:v100:1|2".toList =
      some [⟨⟨"slurm_user_jobs_running", "Running jobs for user", ["user"]⟩, .fin 1,
              ["alice".toList]⟩,
            ⟨⟨"slurm_user_cpus_running", "Running cpus for user", ["user"]⟩, .fin 8,
              ["alice".toList]⟩,
            ⟨⟨"slurm_user_gpus_running", "Running gpus for user", ["user"]⟩, .fin 2,
              ["alice".toList]⟩] :=
  ⟨⟨by decide!, by decide!, by decide!⟩,
    C8_alice_samples goLib (by decide!) (by decide!) (by decide!)⟩


/-! ## Signs -/

theorem F64.le_zero_add (a b : F64) (ha : F64.le F64.zero a = true)
    (hb : F64.le F64.zero b = true) : F64.le F64.zero (F64.add a b) = true := by
  cases a with
  | nan => simp [F64.le, F64.zero] at ha
  | inf na =>
    cases na
    · cases b with
      | nan => simp [F64.le, F64.zero] at hb
      | inf nb => cases nb <;> simp_all [F64.le, F64.zero, F64.add]
      | fin q => simp [F64.le, F64.zero, F64.add]
    · simp [F64.le, F64.zero] at ha
  | fin p =>
    cases b with
    | nan => simp [F64.le, F64.zero] at hb
    | inf nb => cases nb <;> simp_all [F64.le, F64.zero, F64.add]
    | fin q =>
      simp only [F64.le, F64.zero, F64.add, decide_eq_true_eq] at ha hb ⊢
      exact add_nonneg ha hb

theorem F64.le_zero_of_gt (v : F64) (h : F64.gt v F64.zero = true) :
    F64.le F64.zero v = true := by
  cases v with
  | nan => simp [F64.gt, F64.lt, F64.zero] at h
  | inf n => cases n <;> simp_all [F64.gt, F64.lt, F64.le, F64.zero]
  | fin q =>
    simp only [F64.gt, F64.lt, F64.le, F64.zero, decide_eq_true_eq] at h ⊢
    exact le_of_lt h

theorem F64.le_zero_natCast (n : Nat) : F64.le F64.zero (F64.fin (n : ℚ)) = true := by
  simp [F64.le, F64.zero]

theorem foldl_lineEffect_cpus_nonneg (lib : GoLib) (ls : List (List Char)) :
    ∀ m : UserJobMetrics, F64.le F64.zero m.running_cpus = true →
      (∀ l ∈ ls, stateMatches lib "running" l = true → F64.le F64.zero (lineCpus lib l) = true) →
      F64.le F64.zero (ls.foldl (fun m l => lineEffect lib l m) m).running_cpus = true := by
  induction ls with
  | nil => intro m hm _; exact hm
  | cons l rest ih =>
    intro m hm h
    rw [List.foldl_cons]
    apply ih _ _ (fun l' hl' => h l' (List.mem_cons_of_mem _ hl'))
    unfold lineEffect
    split
    · exact hm
    · split
      · rename_i hr
        exact F64.le_zero_add _ _ hm (h l (by simp) hr)
      · split <;> exact hm

theorem foldl_lineEffect_gpus_nonneg (lib : GoLib) (ls : List (List Char)) :
    ∀ m : UserJobMetrics, F64.le F64.zero m.running_gpus = true →
      (∀ l ∈ ls, stateMatches lib "running" l = true → F64.le F64.zero (lineGpus lib l) = true) →
      F64.le F64.zero (ls.foldl (fun m l => lineEffect lib l m) m).running_gpus = true := by
  induction ls with
  | nil => intro m hm _; exact hm
  | cons l rest ih =>
    intro m hm h
    rw [List.foldl_cons]
    apply ih _ _ (fun l' hl' => h l' (List.mem_cons_of_mem _ hl'))
    unfold lineEffect
    split
    · exact hm
    · split
      · rename_i hr
        exact F64.le_zero_add _ _ hm (h l (by simp) hr)
      · split <;> exact hm

/-- Claim C9, as stated, fails: the running job `1|alice|RUNNING|-4|N/A|1` has
a negative cpus field, `ParseUsersMetrics` returns on it, and the
`running_cpus` counter of `alice` is `-4`, which is not `>= 0`. -/
theorem C9_counterexample :
    ParseUsersMetrics goLib "1|alice|RUNNING|-4|N/A|1".toList =
      some [("alice".toList, ⟨.fin 0, .fin 1, .fin (-4), .fin 0, .fin 0⟩)] ∧
    F64.le F64.zero (F64.fin (-4)) = false := by
  decide!

/-- Claim C9, amended.  For every input on which `ParseUsersMetrics` returns and
every user of the returned mapping, the `pending`, `running` and `suspended`
counters are non-negative; `running_cpus` is non-negative when the cpus value
the code reads is non-negative on each of that user's lines whose state is
running, and `running_gpus` is non-negative when the product of the per-node
GPU count and the node count is non-negative on each of those lines. -/
theorem C9_counters_nonneg (lib : GoLib) (input : List Char) (um : UsersMap)
    (h : ParseUsersMetrics lib input = some um) (u : List Char) (m : UserJobMetrics)
    (hm : um.get u = some m) :
    F64.le F64.zero m.pending = true ∧ F64.le F64.zero m.running = true ∧
    F64.le F64.zero m.suspended = true ∧
    ((∀ l ∈ jobLines input, field l 1 = u → stateMatches lib "running" l = true →
        F64.le F64.zero (lineCpus lib l) = true) →
      F64.le F64.zero m.running_cpus = true) ∧
    ((∀ l ∈ jobLines input, field l 1 = u → stateMatches lib "running" l = true →
        F64.le F64.zero (lineGpus lib l) = true) →
      F64.le F64.zero m.running_gpus = true) := by
  obtain ⟨-, h2, -⟩ := ParseUsersMetrics_spec lib input um h
  have hc := h2 u
  rw [counters_of_get um u m hm] at hc
  obtain ⟨c1, c2, c3⟩ := foldl_lineEffect_counts lib
    ((jobLines input).filter (fun l => decide (field l 1 = u)))
    UserJobMetrics.zero 0 0 0 (by simp [UserJobMetrics.zero, F64.zero])
    (by simp [UserJobMetrics.zero, F64.zero]) (by simp [UserJobMetrics.zero, F64.zero])
  rw [← hc] at c1 c2 c3
  refine ⟨?_, ?_, ?_, ?_, ?_⟩
  · rw [c1]; exact F64.le_zero_natCast _
  · rw [c2]; exact F64.le_zero_natCast _
  · rw [c3]; exact F64.le_zero_natCast _
  · intro hall
    rw [hc]
    apply foldl_lineEffect_cpus_nonneg
    · simp [UserJobMetrics.zero, F64.le, F64.zero]
    · intro l hl hr
      simp only [List.mem_filter, decide_eq_true_eq] at hl
      exact hall l hl.1 hl.2 hr
  · intro hall
    rw [hc]
    apply foldl_lineEffect_gpus_nonneg
    · simp [UserJobMetrics.zero, F64.le, F64.zero]
    · intro l hl hr
      simp only [List.mem_filter, decide_eq_true_eq] at hl
      exact hall l hl.1 hl.2 hr

/-- Witness of `C9_counters_nonneg`: the counters of `alice` after a running, a
pending and a suspended job. -/
theorem C9_counters_nonneg_witness :
    F64.le F64.zero (F64.fin 1) = true ∧ F64.le F64.zero (F64.fin 1) = true ∧
    F64.le F64.zero (F64.fin 1) = true ∧
    ((∀ l ∈ jobLines "1|alice|RUNNING|8|gpu:v100:1|2\n2|alice|PENDING|1|N/A|1\n3|alice|SUSPENDED|1|N/A|1".toList,
        field l 1 = "alice".toList → stateMatches goLib "running" l = true →
        F64.le F64.zero (lineCpus goLib l) = true) →
      F64.le F64.zero (F64.fin 8) = true) ∧
    ((∀ l ∈ jobLines "1|alice|RUNNING|8|gpu:v100:1|2\n2|alice|PENDING|1|N/A|1\n3|alice|SUSPENDED|1|N/A|1".toList,
        field l 1 = "alice".toList → stateMatches goLib "running" l = true →
        F64.le F64.zero (lineGpus goLib l) = true) →
      F64.le F64.zero (F64.fin 2) = true) :=
  C9_counters_nonneg goLib
    "1|alice|RUNNING|8|gpu:v100:1|2\n2|alice|PENDING|1|N/A|1\n3|alice|SUSPENDED|1|N/A|1".toList
    [("alice".toList, ⟨.fin 1, .fin 1, .fin 8, .fin 1, .fin 2⟩)] (by decide!)
    "alice".toList ⟨.fin 1, .fin 1, .fin 8, .fin 1, .fin 2⟩ (by decide!)

/-- Claim C10.  Every sample `Collect` emits has a non-negative value: for
every input on which `Collect` returns samples, each of them has a value
`>= 0`; and `Collect` returns on every well-formed input. -/
theorem C10_samples_nonneg (lib : GoLib) (uc : UsersCollector) (data : List Char) :
    (∀ samples, Collect lib uc data = some samples →
      ∀ s ∈ samples, F64.le F64.zero s.value = true) ∧
    (wellFormed data → ∃ samples, Collect lib uc data = some samples) := by
  constructor
  · intro samples h s hs
    unfold Collect at h
    cases hp : ParseUsersMetrics lib data with
    | none => rw [hp] at h; simp at h
    | some um =>
      rw [hp] at h
      simp only [Option.map_some', Option.some.injEq] at h
      subst h
      obtain ⟨u, hu⟩ := (mem_publish uc um s).mp hs
      obtain ⟨m, -, h1⟩ := (mem_collectUser uc um u s).mp hu
      rcases h1 with ⟨hgt, rfl⟩ | ⟨hgt, rfl⟩ | ⟨hgt, rfl⟩ | ⟨hgt, rfl⟩ | ⟨hgt, rfl⟩ <;>
        exact F64.le_zero_of_gt _ hgt
  · intro hwf
    obtain ⟨um, hum⟩ := ParseUsersMetrics_total lib data hwf
    exact ⟨publish uc um, by simp [Collect, hum]⟩

/-- Witness of `C10_samples_nonneg`: a snapshot with a negative cpus field, on
which `Collect` returns samples, all of them non-negative. -/
theorem C10_samples_nonneg_witness :
    wellFormed "1|alice|RUNNING|-4|N/A|1".toList ∧
    ∃ samples, Collect goLib NewUsersCollector "1|alice|RUNNING|-4|N/A|1".toList = some samples ∧
      ∀ s ∈ samples, F64.le F64.zero s.value = true :=
  ⟨by decide,
    ((C10_samples_nonneg goLib NewUsersCollector "1|alice|RUNNING|-4|N/A|1".toList).2
      (by decide)).imp
      (fun samples h => ⟨h,
        (C10_samples_nonneg goLib NewUsersCollector "1|alice|RUNNING|-4|N/A|1".toList).1
          samples h⟩)⟩

/-! ## Panics -/

/-- Claim C16.  The function `ParseUsersMetrics` panics (an index is out of
range) if and only if some line of the input that contains `|` has fewer than
six fields or a gres field (field 4) that splits on `:` into exactly two
segments; on every other input it returns a mapping. -/
theorem C16_panics_iff (lib : GoLib) (input : List Char) :
    (ParseUsersMetrics lib input = none ↔
      ∃ l ∈ jobLines input,
        (Split l '|').length < 6 ∨ (Split (field l 4) ':').length = 2) ∧
    ((¬ ∃ l ∈ jobLines input,
        (Split l '|').length < 6 ∨ (Split (field l 4) ':').length = 2) →
      ∃ um, ParseUsersMetrics lib input = some um) := by
  have hwf : wellFormed input ↔ ¬ ∃ l ∈ jobLines input,
      (Split l '|').length < 6 ∨ (Split (field l 4) ':').length = 2 := by
    unfold wellFormed wellFormedLine
    constructor
    · rintro h ⟨l, hl, hbad⟩
      obtain ⟨h6, hg⟩ := h l hl
      rcases hbad with hb | hb
      · omega
      · exact hg hb
    · intro h l hl
      constructor
      · by_contra h6
        exact h ⟨l, hl, Or.inl (by omega)⟩
      · intro hg
        exact h ⟨l, hl, Or.inr hg⟩
  constructor
  · constructor
    · intro hnone
      by_contra hno
      obtain ⟨um, hum⟩ := ParseUsersMetrics_total lib input (hwf.mpr hno)
      rw [hnone] at hum
      contradiction
    · intro hbad
      cases h : ParseUsersMetrics lib input with
      | none => rfl
      | some um => exact absurd hbad (hwf.mp (ParseUsersMetrics_spec lib input um h).1)
  · intro hno
    exact ParseUsersMetrics_total lib input (hwf.mpr hno)

/-- Witness of `C16_panics_iff`: a snapshot on which no line is ill formed, so
the function returns; and a snapshot with a gres field of two segments, on
which it panics. -/
theorem C16_panics_iff_witness :
    ((¬ ∃ l ∈ jobLines "1|alice|RUNNING|8|gpu:v100:1|2\n\n2|bob|PENDING|1|N/A|1".toList,
        (Split l '|').length < 6 ∨ (Split (field l 4) ':').length = 2) ∧
      ∃ um, ParseUsersMetrics goLib
        "1|alice|RUNNING|8|gpu:v100:1|2\n\n2|bob|PENDING|1|N/A|1".toList = some um) ∧
    ((∃ l ∈ jobLines "1|alice|RUNNING|8|gpu:2|2".toList,
        (Split l '|').length < 6 ∨ (Split (field l 4) ':').length = 2) ∧
      ParseUsersMetrics goLib "1|alice|RUNNING|8|gpu:2|2".toList = none) :=
  ⟨⟨by decide, (C16_panics_iff goLib _).2 (by decide)⟩,
    by decide, (C16_panics_iff goLib "1|alice|RUNNING|8|gpu:2|2".toList).1.mpr (by decide)⟩

/-! ## Keys -/

theorem keys_set (users : UsersMap) (u : List Char) (m : UserJobMetrics) :
    List.map Prod.fst (users.set u m) =
      if (users.get u).isSome = true then List.map Prod.fst users
      else List.map Prod.fst users ++ [u] := by
  induction users with
  | nil => simp [UsersMap.set, UsersMap.get]
  | cons e rest ih =>
    obtain ⟨k, w⟩ := e
    by_cases h : k = u
    · simp [UsersMap.set, UsersMap.get, h]
    · simp only [UsersMap.set, UsersMap.get, h, ↓reduceIte, List.map_cons, ih]
      split <;> simp

theorem keys_modify (users : UsersMap) (u : List Char) (f : UserJobMetrics → UserJobMetrics) :
    List.map Prod.fst (users.modify u f) = List.map Prod.fst users := by
  unfold UsersMap.modify
  cases h : users.get u with
  | none => rfl
  | some m => simp [keys_set, h]

theorem keys_nodup_set (users : UsersMap) (u : List Char) (m : UserJobMetrics)
    (h : (List.map Prod.fst users).Nodup) : (List.map Prod.fst (users.set u m)).Nodup := by
  rw [keys_set]
  split
  · exact h
  · rename_i hn
    rw [List.nodup_append]
    refine ⟨h, by simp, ?_⟩
    intro a ha hb
    simp only [List.mem_singleton] at hb
    subst hb
    exact hn ((mem_keys_iff users a).mp ha)

theorem processLine_keys_nodup (lib : GoLib) (users users' : UsersMap) (line : List Char)
    (h : processLine lib users line = some users')
    (hn : (List.map Prod.fst users).Nodup) : (List.map Prod.fst users').Nodup := by
  by_cases hc : Contains line '|' = true
  · have hwf := wellFormedLine_of_processLine lib users users' line hc h
    obtain ⟨f0, user, state, cpus, gres, nodes, rest, hs, hg⟩ := fields_of_wellFormedLine line hwf
    have hbase : (List.map Prod.fst (if (users.get user).isSome = true then users
        else users.set user UserJobMetrics.zero)).Nodup := by
      split
      · exact hn
      · exact keys_nodup_set users user _ hn
    simp only [processLine, hc, hs, List.getElem?_cons_succ, List.getElem?_cons_zero,
      Option.bind_eq_bind, Option.some_bind, Option.pure_def, Option.bind_some, ↓reduceIte] at h
    generalize (if (users.get user).isSome = true then users
        else users.set user UserJobMetrics.zero) = base at hbase h
    by_cases hl : (Split gres ':').length > 1
    on_goal 1 =>
      have h3' : 2 < (Split gres ':').length := by omega
      simp only [hl, ↓reduceIte, List.getElem?_eq_getElem h3', Option.map_some',
        Option.some_bind] at h
    on_goal 2 =>
      simp only [hl, ↓reduceIte] at h
    all_goals
      by_cases hp : MatchString "pending".toList (ToLower lib state) = true <;>
      by_cases hr : MatchString "running".toList (ToLower lib state) = true <;>
      by_cases hsus : MatchString "suspended".toList (ToLower lib state) = true <;>
      simp only [hp, hr, hsus, Bool.false_eq_true, ↓reduceIte, Option.some.injEq] at h <;>
      subst h <;>
      (try simp only [keys_modify]) <;>
      exact hbase
  · rw [processLine_of_not_contains lib users line (by simpa using hc)] at h
    cases h
    exact hn

theorem foldlM_processLine_keys_nodup (lib : GoLib) (lines : List (List Char)) :
    ∀ users um : UsersMap, lines.foldlM (processLine lib) users = some um →
      (List.map Prod.fst users).Nodup → (List.map Prod.fst um).Nodup := by
  induction lines with
  | nil =>
    intro users um h hn
    simp only [List.foldlM_nil, Option.pure_def, Option.some.injEq] at h
    subst h
    exact hn
  | cons l rest ih =>
    intro users um h hn
    rw [List.foldlM_cons] at h
    cases hp : processLine lib users l with
    | none => rw [hp] at h; contradiction
    | some users' =>
      rw [hp] at h
      exact ih users' um h (processLine_keys_nodup lib users users' l hp hn)

theorem ParseUsersMetrics_keys_nodup (lib : GoLib) (input : List Char) (um : UsersMap)
    (h : ParseUsersMetrics lib input = some um) : (List.map Prod.fst um).Nodup :=
  foldlM_processLine_keys_nodup lib _ [] um h (by simp)

/-- Claim C12.  For every input on which `ParseUsersMetrics` returns, the keys
of the returned mapping are exactly the field-1 values of the lines of the
input that contain `|`: each such user is a key, no other key is present, and
no key occurs twice. -/
theorem C12_key_set (lib : GoLib) (input : List Char) (um : UsersMap)
    (h : ParseUsersMetrics lib input = some um) :
    (∀ u, u ∈ List.map Prod.fst um ↔ ∃ l ∈ jobLines input, field l 1 = u) ∧
    (List.map Prod.fst um).Nodup := by
  refine ⟨fun u => ?_, ParseUsersMetrics_keys_nodup lib input um h⟩
  rw [mem_keys_iff, (ParseUsersMetrics_spec lib input um h).2.2 u, List.any_eq_true]
  simp

/-- Witness of `C12_key_set`: a snapshot with two jobs of `alice`, one of `bob`
and a blank line. -/
theorem C12_key_set_witness :
    (∀ u, u ∈ List.map Prod.fst
        [("alice".toList, (⟨.fin 1, .fin 1, .fin 8, .fin 0, .fin 2⟩ : UserJobMetrics)),
          ("bob".toList, ⟨.fin 0, .fin 0, .fin 0, .fin 0, .fin 0⟩)] ↔
      ∃ l ∈ jobLines
        "1|alice|RUNNING|8|gpu:v100:1|2\n2|bob|COMPLETED|1|N/A|1\n\n3|alice|PENDING|1|N/A|1".toList,
        field l 1 = u) ∧
    (List.map Prod.fst
      [("alice".toList, (⟨.fin 1, .fin 1, .fin 8, .fin 0, .fin 2⟩ : UserJobMetrics)),
        ("bob".toList, ⟨.fin 0, .fin 0, .fin 0, .fin 0, .fin 0⟩)]).Nodup :=
  C12_key_set goLib
    "1|alice|RUNNING|8|gpu:v100:1|2\n2|bob|COMPLETED|1|N/A|1\n\n3|alice|PENDING|1|N/A|1".toList
    _ (by decide!)

/-! ## Lines without a separator -/

theorem Split_append_cons (a b : List Char) (sep : Char) :
    Split (a ++ sep :: b) sep = Split a sep ++ Split b sep := by
  induction a with
  | nil => simp [Split]
  | cons c cs ih =>
    by_cases hc : c = sep
    · subst hc
      simp only [List.cons_append]
      rw [Split, if_pos rfl, ih]
      conv_rhs => rw [Split, if_pos rfl]
      rfl
    · have hne := Split_ne_nil cs sep
      simp only [List.cons_append]
      rw [Split, if_neg hc, ih]
      conv_rhs => rw [Split, if_neg hc]
      cases hs : Split cs sep with
      | nil => exact absurd hs hne
      | cons p ps => simp

theorem mem_of_mem_Split (s : List Char) (sep : Char) :
    ∀ l ∈ Split s sep, ∀ x ∈ l, x ∈ s := by
  induction s with
  | nil => intro l hl x hx; simp [Split] at hl; subst hl; exact hx
  | cons c cs ih =>
    intro l hl x hx
    unfold Split at hl
    by_cases hc : c = sep
    · rw [if_pos hc] at hl
      rcases List.mem_cons.mp hl with rfl | hl'
      · simp at hx
      · exact List.mem_cons_of_mem _ (ih l hl' x hx)
    · rw [if_neg hc] at hl
      cases hs : Split cs sep with
      | nil => exact absurd hs (Split_ne_nil cs sep)
      | cons p ps =>
        rw [hs] at hl ih
        rcases List.mem_cons.mp hl with rfl | hl'
        · rcases List.mem_cons.mp hx with rfl | hx'
          · simp
          · exact List.mem_cons_of_mem _ (ih p (by simp) x hx')
        · exact List.mem_cons_of_mem _ (ih l (List.mem_cons_of_mem _ hl') x hx)

theorem jobLines_append (a b : List Char) :
    jobLines (a ++ '\n' :: b) = jobLines a ++ jobLines b := by
  simp [jobLines, Split_append_cons]

theorem jobLines_of_not_mem (s : List Char) (h : '|' ∉ s) : jobLines s = [] := by
  unfold jobLines
  rw [List.filter_eq_nil_iff]
  intro l hl hc
  exact h (mem_of_mem_Split s '\n' l hl '|' ((Contains_iff l '|').mp hc))

theorem foldlM_processLine_filter (lib : GoLib) (lines : List (List Char)) :
    ∀ users : UsersMap, lines.foldlM (processLine lib) users =
      (lines.filter (fun l => Contains l '|')).foldlM (processLine lib) users := by
  induction lines with
  | nil => intro users; rfl
  | cons l rest ih =>
    intro users
    by_cases hc : Contains l '|' = true
    · simp only [List.filter_cons, hc, ↓reduceIte, List.foldlM_cons]
      cases processLine lib users l with
      | none => rfl
      | some users' => exact ih users'
    · simp only [List.filter_cons, hc, ↓reduceIte, List.foldlM_cons,
        processLine_of_not_contains lib users l (by simpa using hc)]
      exact ih users

theorem ParseUsersMetrics_eq_jobLines (lib : GoLib) (input : List Char) :
    ParseUsersMetrics lib input = (jobLines input).foldlM (processLine lib) [] :=
  foldlM_processLine_filter lib _ []

/-- Claim C13.  The result of `ParseUsersMetrics` depends only on the lines of
the input that contain `|`: two inputs with the same such lines give the same
result, so inserting or deleting text without `|` (any number of lines, blank
or not) between two lines, before the first or after the last changes nothing;
and an input without any `|` gives the empty mapping. -/
theorem C13_lines_without_bar_discarded (lib : GoLib) :
    (∀ a b : List Char, jobLines a = jobLines b →
      ParseUsersMetrics lib a = ParseUsersMetrics lib b) ∧
    (∀ before junk after : List Char, '|' ∉ junk →
      ParseUsersMetrics lib (before ++ '\n' :: junk ++ '\n' :: after) =
        ParseUsersMetrics lib (before ++ '\n' :: after) ∧
      ParseUsersMetrics lib (junk ++ '\n' :: after) = ParseUsersMetrics lib after ∧
      ParseUsersMetrics lib (before ++ '\n' :: junk) = ParseUsersMetrics lib before) ∧
    (∀ input : List Char, '|' ∉ input → ParseUsersMetrics lib input = some []) := by
  refine ⟨?_, ?_, ?_⟩
  · intro a b h
    rw [ParseUsersMetrics_eq_jobLines, ParseUsersMetrics_eq_jobLines, h]
  · intro before junk after hj
    have hjl := jobLines_of_not_mem junk hj
    refine ⟨?_, ?_, ?_⟩
    · rw [ParseUsersMetrics_eq_jobLines, ParseUsersMetrics_eq_jobLines]
      congr 1
      rw [List.append_assoc, jobLines_append, List.cons_append, jobLines_append,
        jobLines_append, hjl]
      simp
    · rw [ParseUsersMetrics_eq_jobLines, ParseUsersMetrics_eq_jobLines, jobLines_append, hjl]
      simp
    · rw [ParseUsersMetrics_eq_jobLines, ParseUsersMetrics_eq_jobLines, jobLines_append, hjl]
      simp
  · intro input h
    rw [ParseUsersMetrics_eq_jobLines, jobLines_of_not_mem input h]
    rfl

/-- Witness of `C13_lines_without_bar_discarded`: a blank line and a line of
plain text put between two jobs, before them and after them. -/
theorem C13_lines_without_bar_discarded_witness :
    '|' ∉ "\nno delimiter here".toList ∧
    (ParseUsersMetrics goLib ("1|alice|RUNNING|8|N/A|1".toList ++ '\n' ::
        "\nno delimiter here".toList ++ '\n' :: "2|bob|PENDING|1|N/A|1".toList) =
      ParseUsersMetrics goLib
        ("1|alice|RUNNING|8|N/A|1".toList ++ '\n' :: "2|bob|PENDING|1|N/A|1".toList) ∧
    ParseUsersMetrics goLib
        ("\nno delimiter here".toList ++ '\n' :: "2|bob|PENDING|1|N/A|1".toList) =
      ParseUsersMetrics goLib "2|bob|PENDING|1|N/A|1".toList ∧
    ParseUsersMetrics goLib
        ("1|alice|RUNNING|8|N/A|1".toList ++ '\n' :: "\nno delimiter here".toList) =
      ParseUsersMetrics goLib "1|alice|RUNNING|8|N/A|1".toList) ∧
    ParseUsersMetrics goLib "\n\nno job".toList = some [] :=
  ⟨by decide,
    (C13_lines_without_bar_discarded goLib).2.1 "1|alice|RUNNING|8|N/A|1".toList
      "\nno delimiter here".toList "2|bob|PENDING|1|N/A|1".toList (by decide),
    (C13_lines_without_bar_discarded goLib).2.2 "\n\nno job".toList (by decide)⟩

/-! ## Sums -/

theorem ParseUsersMetrics_counts (lib : GoLib) (input : List Char) (um : UsersMap)
    (h : ParseUsersMetrics lib input = some um) (u : List Char) :
    (counters um u).pending = F64.fin (countJobs lib "pending" u (Split input '\n') : ℚ) ∧
    (counters um u).running = F64.fin (countJobs lib "running" u (Split input '\n') : ℚ) ∧
    (counters um u).suspended = F64.fin (countJobs lib "suspended" u (Split input '\n') : ℚ) := by
  obtain ⟨-, h2, -⟩ := ParseUsersMetrics_spec lib input um h
  have := foldl_lineEffect_counts lib ((jobLines input).filter (fun l => decide (field l 1 = u)))
    UserJobMetrics.zero 0 0 0 (by simp [UserJobMetrics.zero, F64.zero])
    (by simp [UserJobMetrics.zero, F64.zero]) (by simp [UserJobMetrics.zero, F64.zero])
  rw [← h2 u] at this
  simpa [countJobs_eq] using this

theorem countJobs_append (lib : GoLib) (pat : String) (u : List Char) (a b : List Char) :
    countJobs lib pat u (Split (a ++ '\n' :: b) '\n') =
      countJobs lib pat u (Split a '\n') + countJobs lib pat u (Split b '\n') := by
  simp [countJobs, Split_append_cons]

theorem wellFormed_append (a b : List Char) (ha : wellFormed a) (hb : wellFormed b) :
    wellFormed (a ++ '\n' :: b) := by
  intro l hl
  rw [jobLines_append, List.mem_append] at hl
  rcases hl with h | h
  · exact ha l h
  · exact hb l h

theorem foldl_lineEffect_of_not_running (lib : GoLib) (ls : List (List Char)) :
    ∀ m : UserJobMetrics, (∀ l ∈ ls, stateMatches lib "running" l = false) →
      (ls.foldl (fun m l => lineEffect lib l m) m).running_cpus = m.running_cpus ∧
      (ls.foldl (fun m l => lineEffect lib l m) m).running_gpus = m.running_gpus := by
  induction ls with
  | nil => intro m _; exact ⟨rfl, rfl⟩
  | cons l rest ih =>
    intro m h
    rw [List.foldl_cons]
    obtain ⟨i1, i2⟩ := ih (lineEffect lib l m) (fun l' hl' => h l' (List.mem_cons_of_mem _ hl'))
    have hr := h l (by simp)
    rw [i1, i2]
    unfold lineEffect
    rw [hr]
    split
    · exact ⟨rfl, rfl⟩
    · simp only [Bool.false_eq_true, ↓reduceIte]
      split <;> exact ⟨rfl, rfl⟩

/-- Claim C14.  For well-formed inputs `a` and `b`, `ParseUsersMetrics` returns
on `a`, on `b` and on `a`, a newline, `b`, and in the third result each user's
`pending`, `running` and `suspended` counters are the sums of that user's
counters in the first two (a user without an entry counting as 0).  One pending
and one running job of the same user give `pending = 1` and `running = 1`. -/
theorem C14_counts_additive (lib : GoLib) :
    (∀ a b : List Char, wellFormed a → wellFormed b →
      ∃ ua ub uab, ParseUsersMetrics lib a = some ua ∧ ParseUsersMetrics lib b = some ub ∧
        ParseUsersMetrics lib (a ++ '\n' :: b) = some uab ∧
        ∀ u, (counters uab u).pending =
              F64.add (counters ua u).pending (counters ub u).pending ∧
            (counters uab u).running =
              F64.add (counters ua u).running (counters ub u).running ∧
            (counters uab u).suspended =
              F64.add (counters ua u).suspended (counters ub u).suspended) ∧
    (∃ um m, ParseUsersMetrics lib "1|bob|PENDING|1|N/A|1\n2|bob|RUNNING|1|N/A|1".toList
        = some um ∧ um.get "bob".toList = some m ∧
      m.pending = F64.fin 1 ∧ m.running = F64.fin 1) := by
  constructor
  · intro a b ha hb
    obtain ⟨ua, hua⟩ := ParseUsersMetrics_total lib a ha
    obtain ⟨ub, hub⟩ := ParseUsersMetrics_total lib b hb
    obtain ⟨uab, huab⟩ := ParseUsersMetrics_total lib _ (wellFormed_append a b ha hb)
    refine ⟨ua, ub, uab, hua, hub, huab, fun u => ?_⟩
    obtain ⟨a1, a2, a3⟩ := ParseUsersMetrics_counts lib a ua hua u
    obtain ⟨b1, b2, b3⟩ := ParseUsersMetrics_counts lib b ub hub u
    obtain ⟨c1, c2, c3⟩ := ParseUsersMetrics_counts lib _ uab huab u
    rw [a1, a2, a3, b1, b2, b3, c1, c2, c3]
    simp [countJobs_append, F64.add]
  · obtain ⟨um, hum⟩ := ParseUsersMetrics_total lib
      "1|bob|PENDING|1|N/A|1\n2|bob|RUNNING|1|N/A|1".toList (by decide)
    have hsome : (um.get "bob".toList).isSome = true := by
      rw [(ParseUsersMetrics_spec lib _ um hum).2.2]
      decide
    obtain ⟨m, hm⟩ := Option.isSome_iff_exists.mp hsome
    obtain ⟨c1, c2, -⟩ := ParseUsersMetrics_counts lib _ um hum "bob".toList
    rw [counters_of_get um _ m hm] at c1 c2
    refine ⟨um, m, hum, hm, ?_, ?_⟩
    · rw [c1]
      have : countJobs lib "pending" "bob".toList
          (Split "1|bob|PENDING|1|N/A|1\n2|bob|RUNNING|1|N/A|1".toList '\n') = 1 := by rfl
      rw [this]; simp
    · rw [c2]
      have : countJobs lib "running" "bob".toList
          (Split "1|bob|PENDING|1|N/A|1\n2|bob|RUNNING|1|N/A|1".toList '\n') = 1 := by rfl
      rw [this]; simp

/-- Witness of `C14_counts_additive`: two snapshots that share the user
`alice`. -/
theorem C14_counts_additive_witness :
    (wellFormed "1|alice|PENDING|1|N/A|1\n2|bob|RUNNING|2|N/A|1".toList ∧
      wellFormed "3|alice|PENDING|1|N/A|1\n4|alice|SUSPENDED|1|N/A|1".toList) ∧
    ∃ ua ub uab,
      ParseUsersMetrics goLib "1|alice|PENDING|1|N/A|1\n2|bob|RUNNING|2|N/A|1".toList = some ua ∧
      ParseUsersMetrics goLib "3|alice|PENDING|1|N/A|1\n4|alice|SUSPENDED|1|N/A|1".toList
        = some ub ∧
      ParseUsersMetrics goLib ("1|alice|PENDING|1|N/A|1\n2|bob|RUNNING|2|N/A|1".toList ++ '\n' ::
        "3|alice|PENDING|1|N/A|1\n4|alice|SUSPENDED|1|N/A|1".toList) = some uab ∧
      ∀ u, (counters uab u).pending =
            F64.add (counters ua u).pending (counters ub u).pending ∧
          (counters uab u).running =
            F64.add (counters ua u).running (counters ub u).running ∧
          (counters uab u).suspended =
            F64.add (counters ua u).suspended (counters ub u).suspended :=
  ⟨⟨by decide, by decide⟩,
    (C14_counts_additive goLib).1 _ _ (by decide) (by decide)⟩

/-- Claim C17.  For every input on which `ParseUsersMetrics` returns and every
user of the returned mapping, a `running` counter equal to 0 comes with
`running_cpus` and `running_gpus` equal to 0. -/
theorem C17_no_running_no_resources (lib : GoLib) (input : List Char) (um : UsersMap)
    (h : ParseUsersMetrics lib input = some um) (u : List Char) (m : UserJobMetrics)
    (hm : um.get u = some m) (h0 : m.running = F64.zero) :
    m.running_cpus = F64.zero ∧ m.running_gpus = F64.zero := by
  obtain ⟨-, h2, -⟩ := ParseUsersMetrics_spec lib input um h
  have hc := h2 u
  rw [counters_of_get um u m hm] at hc
  obtain ⟨-, c2, -⟩ := ParseUsersMetrics_counts lib input um h u
  rw [counters_of_get um u m hm, h0, countJobs_eq] at c2
  have hlen : (((jobLines input).filter (fun l => decide (field l 1 = u))).filter
      (stateMatches lib "running")).length = 0 := by
    simp only [F64.zero, F64.fin.injEq] at c2
    exact_mod_cast c2.symm
  have hnone : ∀ l ∈ (jobLines input).filter (fun l => decide (field l 1 = u)),
      stateMatches lib "running" l = false := by
    have := List.length_eq_zero.mp hlen
    rw [List.filter_eq_nil_iff] at this
    intro l hl
    simpa using this l hl
  obtain ⟨r1, r2⟩ := foldl_lineEffect_of_not_running lib _ UserJobMetrics.zero hnone
  rw [← hc] at r1 r2
  exact ⟨r1, r2⟩

/-- Witness of `C17_no_running_no_resources`: `bob` has a pending and a
completed job with cpus and gres fields, and no running job. -/
theorem C17_no_running_no_resources_witness :
    ParseUsersMetrics goLib "1|bob|PENDING|8|gpu:v100:4|2\n2|bob|COMPLETED|16|gpu:v100:4|2".toList
      = some [("bob".toList, ⟨.fin 1, .fin 0, .fin 0, .fin 0, .fin 0⟩)] ∧
    (⟨.fin 1, .fin 0, .fin 0, .fin 0, .fin 0⟩ : UserJobMetrics).running = F64.zero ∧
    (⟨.fin 1, .fin 0, .fin 0, .fin 0, .fin 0⟩ : UserJobMetrics).running_cpus = F64.zero ∧
    (⟨.fin 1, .fin 0, .fin 0, .fin 0, .fin 0⟩ : UserJobMetrics).running_gpus = F64.zero :=
  ⟨by decide!, rfl, C17_no_running_no_resources goLib
    "1|bob|PENDING|8|gpu:v100:4|2\n2|bob|COMPLETED|16|gpu:v100:4|2".toList
    [("bob".toList, ⟨.fin 1, .fin 0, .fin 0, .fin 0, .fin 0⟩)] (by decide!)
    "bob".toList ⟨.fin 1, .fin 0, .fin 0, .fin 0, .fin 0⟩ (by decide) rfl⟩

/-! ## Unparseable numbers -/

theorem F64.add_zero (a : F64) : F64.add a F64.zero = a := by
  cases a <;> simp [F64.add, F64.zero]

theorem F64.mul_fin_zero (q : ℚ) : F64.mul (F64.fin q) F64.zero = F64.zero := by
  simp [F64.mul, F64.zero]

/-- Claim C11, as stated, fails: on the running line
`1|alice|RUNNING|4|gpu:v100:inf|` the node count is empty, hence unparseable
and read as 0, the per-node GPU count is read as plus infinity, and the GPU
contribution is infinity times 0, which is NaN, not 0: `running_gpus` of
`alice` ends as NaN. -/
theorem C11_counterexample :
    goLib.ParseFloat "".toList = .syntaxErr ∧
    ParseUsersMetrics goLib "1|alice|RUNNING|4|gpu:v100:inf|".toList =
      some [("alice".toList, ⟨.fin 0, .fin 1, .fin 4, .fin 0, .nan⟩)] := by
  decide!

/-- Claim C11, amended.  A running line with six fields and a gres field that
does not have exactly two segments, appended to an input on which
`ParseUsersMetrics` returned, makes it return (no error is raised by an
unparseable number), and: a cpus field that `ParseFloat` rejects with a syntax
error adds 0 to `running_cpus` of the user, which leaves it as it was; a node
count rejected with a syntax error is read as 0 and, when the per-node GPU
count is finite, adds 0 to `running_gpus`; a cpus numeral rejected with a range
error adds plus or minus infinity. -/
theorem C11_unparseable_fields (lib : GoLib) (before line : List Char) (users : UsersMap)
    (f0 user state cpus gres nodes : List Char) (rest : List (List Char))
    (hb : ParseUsersMetrics lib before = some users) (hn : '\n' ∉ line)
    (hs : Split line '|' = f0 :: user :: state :: cpus :: gres :: nodes :: rest)
    (hg : (Split gres ':').length ≠ 2)
    (hr : MatchString "running".toList (ToLower lib state) = true) :
    ∃ users', ParseUsersMetrics lib (before ++ '\n' :: line) = some users' ∧
      (lib.ParseFloat cpus = .syntaxErr →
        (counters users' user).running_cpus
            = F64.add (counters users user).running_cpus F64.zero ∧
        (counters users' user).running_cpus = (counters users user).running_cpus) ∧
      (lib.ParseFloat nodes = .syntaxErr →
        (lib.ParseFloat nodes).value = F64.zero ∧
        ∀ q : ℚ, lineGpusPerNode lib line = F64.fin q →
          (counters users' user).running_gpus
              = F64.add (counters users user).running_gpus F64.zero ∧
          (counters users' user).running_gpus = (counters users user).running_gpus) ∧
      (∀ neg, lib.ParseFloat cpus = .rangeErr neg →
        (counters users' user).running_cpus
            = F64.add (counters users user).running_cpus (F64.inf neg)) := by
  obtain ⟨users', h1, h2, -⟩ :=
    append_line_effect lib before line users f0 user state cpus gres nodes rest hb hn hs hg
  obtain ⟨-, f2, f3, -, f5⟩ := field_of_fields line f0 user state cpus gres nodes rest hs
  have hr' : stateMatches lib "running" line = true := by
    unfold stateMatches; rw [f2]; exact hr
  have hp : stateMatches lib "pending" line = false := by
    cases hpp : stateMatches lib "pending" line with
    | false => rfl
    | true =>
      have := MatchString_pending_running _ hpp
      rw [f2, hr] at this
      contradiction
  have hc : counters users' user = lineEffect lib line (counters users user) :=
    counters_of_get users' user _ h2
  have hcpus : (counters users' user).running_cpus =
      F64.add (counters users user).running_cpus (lib.ParseFloat cpus).value := by
    rw [hc]; simp [lineEffect, hp, hr', lineCpus, f3]
  have hgpus : (counters users' user).running_gpus =
      F64.add (counters users user).running_gpus
        (F64.mul (lineGpusPerNode lib line) (lib.ParseFloat nodes).value) := by
    rw [hc]; simp [lineEffect, hp, hr', lineGpus, f5]
  refine ⟨users', h1, ?_, ?_, ?_⟩
  · intro he
    rw [hcpus, he]
    exact ⟨rfl, F64.add_zero _⟩
  · intro he
    refine ⟨by rw [he]; rfl, fun q hq => ?_⟩
    rw [hgpus, he, hq]
    have hz : F64.mul (F64.fin q) ParseResult.syntaxErr.value = F64.zero := F64.mul_fin_zero q
    rw [hz]
    exact ⟨rfl, F64.add_zero _⟩
  · intro neg he
    rw [hcpus, he]
    rfl

/-- Witness of `C11_unparseable_fields`: after one running job of `alice`, a
running job of `alice` with an empty cpus field and an empty node count. -/
theorem C11_unparseable_fields_witness :
    ParseUsersMetrics goLib "1|alice|RUNNING|8|gpu:v100:1|2".toList
      = some [("alice".toList, ⟨.fin 0, .fin 1, .fin 8, .fin 0, .fin 2⟩)] ∧
    goLib.ParseFloat "".toList = .syntaxErr ∧
    lineGpusPerNode goLib "2|alice|RUNNING||gpu:v100:4|".toList = F64.fin 4 ∧
    ∃ users', ParseUsersMetrics goLib
        ("1|alice|RUNNING|8|gpu:v100:1|2".toList ++ '\n' :: "2|alice|RUNNING||gpu:v100:4|".toList)
          = some users' ∧
      (counters users' "alice".toList).running_cpus = F64.fin 8 ∧
      (counters users' "alice".toList).running_gpus = F64.fin 2 := by
  obtain ⟨users', h1, h2, h3, -⟩ := C11_unparseable_fields goLib
    "1|alice|RUNNING|8|gpu:v100:1|2".toList "2|alice|RUNNING||gpu:v100:4|".toList
    [("alice".toList, ⟨.fin 0, .fin 1, .fin 8, .fin 0, .fin 2⟩)]
    "2".toList "alice".toList "RUNNING".toList "".toList "gpu:v100:4".toList "".toList []
    (by decide!) (by decide) (by decide) (by decide) (by decide)
  exact ⟨by decide!, by decide, by decide!, users', h1, (h2 (by decide)).2,
    ((h3 (by decide)).2 4 (by decide!)).2⟩

/-! ## Descriptors and series -/

/-- Claim C15.  The five descriptors built by `NewUsersCollector` carry the
names `slurm_user_jobs_pending`, `slurm_user_jobs_running`,
`slurm_user_cpus_running`, `slurm_user_jobs_suspended` and
`slurm_user_gpus_running` for the fields `pending`, `running`, `running_cpus`,
`suspended` and `running_gpus`, each with the single label `user`; and every
sample `Collect` sends carries one label value, a key `u` of the mapping, and
pairs the descriptor of one field of the collector with the value of the same
field of the counters of `u`. -/
theorem C15_descriptors :
    (NewUsersCollector.pending.fqName = "slurm_user_jobs_pending" ∧
      NewUsersCollector.running.fqName = "slurm_user_jobs_running" ∧
      NewUsersCollector.running_cpus.fqName = "slurm_user_cpus_running" ∧
      NewUsersCollector.suspended.fqName = "slurm_user_jobs_suspended" ∧
      NewUsersCollector.running_gpus.fqName = "slurm_user_gpus_running") ∧
    (NewUsersCollector.pending.variableLabels = ["user"] ∧
      NewUsersCollector.running.variableLabels = ["user"] ∧
      NewUsersCollector.running_cpus.variableLabels = ["user"] ∧
      NewUsersCollector.suspended.variableLabels = ["user"] ∧
      NewUsersCollector.running_gpus.variableLabels = ["user"]) ∧
    (∀ (uc : UsersCollector) (um : UsersMap) (s : Metric), s ∈ publish uc um →
      ∃ u m, um.get u = some m ∧ s.labelValues = [u] ∧
        ((s.desc = uc.pending ∧ s.value = m.pending) ∨
         (s.desc = uc.running ∧ s.value = m.running) ∨
         (s.desc = uc.running_cpus ∧ s.value = m.running_cpus) ∨
         (s.desc = uc.suspended ∧ s.value = m.suspended) ∨
         (s.desc = uc.running_gpus ∧ s.value = m.running_gpus))) ∧
    (∀ (um : UsersMap) (s : Metric), s ∈ publish NewUsersCollector um →
      ∃ u m, um.get u = some m ∧ s.labelValues = [u] ∧
        ((s.desc.fqName = "slurm_user_jobs_pending" ∧ s.value = m.pending) ∨
         (s.desc.fqName = "slurm_user_jobs_running" ∧ s.value = m.running) ∨
         (s.desc.fqName = "slurm_user_cpus_running" ∧ s.value = m.running_cpus) ∨
         (s.desc.fqName = "slurm_user_jobs_suspended" ∧ s.value = m.suspended) ∨
         (s.desc.fqName = "slurm_user_gpus_running" ∧ s.value = m.running_gpus))) := by
  have pair : ∀ (uc : UsersCollector) (um : UsersMap) (s : Metric), s ∈ publish uc um →
      ∃ u m, um.get u = some m ∧ s.labelValues = [u] ∧
        ((s.desc = uc.pending ∧ s.value = m.pending) ∨
         (s.desc = uc.running ∧ s.value = m.running) ∨
         (s.desc = uc.running_cpus ∧ s.value = m.running_cpus) ∨
         (s.desc = uc.suspended ∧ s.value = m.suspended) ∨
         (s.desc = uc.running_gpus ∧ s.value = m.running_gpus)) := by
    intro uc um s hs
    obtain ⟨u, hu⟩ := (mem_publish uc um s).mp hs
    obtain ⟨m, hm, h⟩ := (mem_collectUser uc um u s).mp hu
    refine ⟨u, m, hm, labelValues_of_mem_collectUser uc um u s hu, ?_⟩
    rcases h with ⟨-, rfl⟩ | ⟨-, rfl⟩ | ⟨-, rfl⟩ | ⟨-, rfl⟩ | ⟨-, rfl⟩ <;> simp
  refine ⟨by decide, by decide, pair, ?_⟩
  intro um s hs
  obtain ⟨u, m, hm, hl, h⟩ := pair NewUsersCollector um s hs
  refine ⟨u, m, hm, hl, ?_⟩
  rcases h with ⟨hd, hv⟩ | ⟨hd, hv⟩ | ⟨hd, hv⟩ | ⟨hd, hv⟩ | ⟨hd, hv⟩ <;>
    simp [hd, hv, NewUsersCollector]

/-- Witness of `C15_descriptors`: the CPU sample of `alice`. -/
theorem C15_descriptors_witness :
    (⟨NewUsersCollector.running_cpus, .fin 8, ["alice".toList]⟩ : Metric) ∈
      publish NewUsersCollector [("alice".toList, ⟨.fin 0, .fin 1, .fin 8, .fin 0, .fin 2⟩)] ∧
    ∃ u m, UsersMap.get [("alice".toList, ⟨.fin 0, .fin 1, .fin 8, .fin 0, .fin 2⟩)] u = some m ∧
      (⟨NewUsersCollector.running_cpus, .fin 8, ["alice".toList]⟩ : Metric).labelValues = [u] ∧
      (((⟨NewUsersCollector.running_cpus, .fin 8, ["alice".toList]⟩ : Metric).desc.fqName
            = "slurm_user_jobs_pending" ∧
          (⟨NewUsersCollector.running_cpus, .fin 8, ["alice".toList]⟩ : Metric).value
            = m.pending) ∨
       ((⟨NewUsersCollector.running_cpus, .fin 8, ["alice".toList]⟩ : Metric).desc.fqName
            = "slurm_user_jobs_running" ∧
          (⟨NewUsersCollector.running_cpus, .fin 8, ["alice".toList]⟩ : Metric).value
            = m.running) ∨
       ((⟨NewUsersCollector.running_cpus, .fin 8, ["alice".toList]⟩ : Metric).desc.fqName
            = "slurm_user_cpus_running" ∧
          (⟨NewUsersCollector.running_cpus, .fin 8, ["alice".toList]⟩ : Metric).value
            = m.running_cpus) ∨
       ((⟨NewUsersCollector.running_cpus, .fin 8, ["alice".toList]⟩ : Metric).desc.fqName
            = "slurm_user_jobs_suspended" ∧
          (⟨NewUsersCollector.running_cpus, .fin 8, ["alice".toList]⟩ : Metric).value
            = m.suspended) ∨
       ((⟨NewUsersCollector.running_cpus, .fin 8, ["alice".toList]⟩ : Metric).desc.fqName
            = "slurm_user_gpus_running" ∧
          (⟨NewUsersCollector.running_cpus, .fin 8, ["alice".toList]⟩ : Metric).value
            = m.running_gpus)) :=
  ⟨by decide!, C15_descriptors.2.2.2 _ _ (by decide!)⟩

theorem collectUser_keys_nodup (um : UsersMap) (u : List Char) :
    ((collectUser NewUsersCollector um u).map (fun s => (s.desc, s.labelValues))).Nodup := by
  unfold collectUser
  cases um.get u with
  | none => simp
  | some m =>
    by_cases h1 : F64.gt m.pending F64.zero = true <;>
    by_cases h2 : F64.gt m.running F64.zero = true <;>
    by_cases h3 : F64.gt m.running_cpus F64.zero = true <;>
    by_cases h4 : F64.gt m.suspended F64.zero = true <;>
    by_cases h5 : F64.gt m.running_gpus F64.zero = true <;>
    simp [h1, h2, h3, h4, h5, NewUsersCollector]

theorem collectUser_length_le (uc : UsersCollector) (um : UsersMap) (u : List Char) :
    (collectUser uc um u).length ≤ 5 := by
  unfold collectUser
  cases um.get u with
  | none => simp
  | some m =>
    simp only [List.length_append]
    have h : ∀ (c : Bool) (x : Metric), (if c = true then [x] else []).length ≤ 1 := by
      intro c x; cases c <;> simp
    have a1 := h (F64.gt m.pending F64.zero) ⟨uc.pending, m.pending, [u]⟩
    have a2 := h (F64.gt m.running F64.zero) ⟨uc.running, m.running, [u]⟩
    have a3 := h (F64.gt m.running_cpus F64.zero) ⟨uc.running_cpus, m.running_cpus, [u]⟩
    have a4 := h (F64.gt m.suspended F64.zero) ⟨uc.suspended, m.suspended, [u]⟩
    have a5 := h (F64.gt m.running_gpus F64.zero) ⟨uc.running_gpus, m.running_gpus, [u]⟩
    omega

theorem flatMap_collectUser_filter_length (uc : UsersCollector) (um : UsersMap) (u : List Char)
    (ks : List (List Char)) (hn : ks.Nodup) :
    ((ks.flatMap (collectUser uc um)).filter
      (fun s => decide (s.labelValues = [u]))).length ≤ 5 := by
  induction ks with
  | nil => simp
  | cons k rest ih =>
    obtain ⟨hk, hrest⟩ := List.nodup_cons.mp hn
    rw [List.flatMap_cons, List.filter_append, List.length_append]
    by_cases hku : k = u
    · subst hku
      have hz : ((rest.flatMap (collectUser uc um)).filter
          (fun s => decide (s.labelValues = [k]))) = [] := by
        rw [List.filter_eq_nil_iff]
        intro s hs
        obtain ⟨k', hk', hs'⟩ := List.mem_flatMap.mp hs
        have := labelValues_of_mem_collectUser uc um k' s hs'
        simp only [decide_eq_true_eq, this, List.cons.injEq, and_true]
        rintro rfl
        exact hk hk'
      rw [hz]
      have := List.length_filter_le (fun s : Metric => decide (s.labelValues = [k]))
        (collectUser uc um k)
      have := collectUser_length_le uc um k
      simp only [List.length_nil, Nat.add_zero]
      omega
    · have hz : ((collectUser uc um k).filter
          (fun s => decide (s.labelValues = [u]))) = [] := by
        rw [List.filter_eq_nil_iff]
        intro s hs
        have := labelValues_of_mem_collectUser uc um k s hs
        simp only [decide_eq_true_eq, this, List.cons.injEq, and_true]
        exact hku
      rw [hz]
      simpa using ih hrest

theorem publish_series_nodup (um : UsersMap) (hn : (List.map Prod.fst um).Nodup) :
    ((publish NewUsersCollector um).map (fun s => (s.desc, s.labelValues))).Nodup := by
  unfold publish
  rw [List.map_flatMap, List.nodup_flatMap]
  refine ⟨fun u _ => collectUser_keys_nodup um u, ?_⟩
  refine List.Pairwise.imp ?_ hn
  intro a b hab
  simp only [Function.onFun]
  rw [List.disjoint_left]
  intro p hpa hpb
  obtain ⟨sa, hsa, rfl⟩ := List.mem_map.mp hpa
  obtain ⟨sb, hsb, heq⟩ := List.mem_map.mp hpb
  have la := labelValues_of_mem_collectUser _ um a sa hsa
  have lb := labelValues_of_mem_collectUser _ um b sb hsb
  simp only [Prod.mk.injEq] at heq
  rw [la, lb] at heq
  exact hab (by simpa using heq.2.symm)

/-- Claim C18.  For every mapping (an association list without a repeated key,
as a Go map is), no two samples that `Collect` sends have the same descriptor
and the same label value, and at most five of them carry the label value of a
given user; the same holds of the samples of `Collect` on every input on which
it returns. -/
theorem C18_no_duplicate_series :
    (∀ um : UsersMap, (List.map Prod.fst um).Nodup →
      ((publish NewUsersCollector um).map (fun s => (s.desc, s.labelValues))).Nodup ∧
      ∀ u, ((publish NewUsersCollector um).filter
        (fun s => decide (s.labelValues = [u]))).length ≤ 5) ∧
    (∀ (lib : GoLib) (data : List Char) (samples : List Metric),
      Collect lib NewUsersCollector data = some samples →
      (samples.map (fun s => (s.desc, s.labelValues))).Nodup ∧
      ∀ u, (samples.filter (fun s => decide (s.labelValues = [u]))).length ≤ 5) := by
  have main : ∀ um : UsersMap, (List.map Prod.fst um).Nodup →
      ((publish NewUsersCollector um).map (fun s => (s.desc, s.labelValues))).Nodup ∧
      ∀ u, ((publish NewUsersCollector um).filter
        (fun s => decide (s.labelValues = [u]))).length ≤ 5 :=
    fun um hn => ⟨publish_series_nodup um hn,
      fun u => flatMap_collectUser_filter_length NewUsersCollector um u _ hn⟩
  refine ⟨main, ?_⟩
  intro lib data samples h
  unfold Collect at h
  cases hp : ParseUsersMetrics lib data with
  | none => rw [hp] at h; simp at h
  | some um =>
    rw [hp] at h
    simp only [Option.map_some', Option.some.injEq] at h
    subst h
    exact main um (ParseUsersMetrics_keys_nodup lib data um hp)

/-- Witness of `C18_no_duplicate_series`: a mapping with two users, and the
snapshot it comes from. -/
theorem C18_no_duplicate_series_witness :
    ((List.map Prod.fst
        [("alice".toList, (⟨.fin 1, .fin 1, .fin 8, .fin 0, .fin 2⟩ : UserJobMetrics)),
          ("bob".toList, ⟨.fin 0, .fin 0, .fin 0, .fin 1, .fin 0⟩)]).Nodup ∧
      ((publish NewUsersCollector
          [("alice".toList, ⟨.fin 1, .fin 1, .fin 8, .fin 0, .fin 2⟩),
            ("bob".toList, ⟨.fin 0, .fin 0, .fin 0, .fin 1, .fin 0⟩)]).map
        (fun s => (s.desc, s.labelValues))).Nodup ∧
      ∀ u, ((publish NewUsersCollector
          [("alice".toList, ⟨.fin 1, .fin 1, .fin 8, .fin 0, .fin 2⟩),
            ("bob".toList, ⟨.fin 0, .fin 0, .fin 0, .fin 1, .fin 0⟩)]).filter
        (fun s => decide (s.labelValues = [u]))).length ≤ 5) ∧
    ∃ samples, Collect goLib NewUsersCollector
        "1|alice|RUNNING|8|gpu:v100:1|2\n2|alice|PENDING|1|N/A|1\n3|bob|SUSPENDED|1|N/A|1".toList
          = some samples ∧
      (samples.map (fun s => (s.desc, s.labelValues))).Nodup ∧
      ∀ u, (samples.filter (fun s => decide (s.labelValues = [u]))).length ≤ 5 :=
  ⟨⟨by decide, C18_no_duplicate_series.1 _ (by decide)⟩,
    publish NewUsersCollector
      [("alice".toList, ⟨.fin 1, .fin 1, .fin 8, .fin 0, .fin 2⟩),
        ("bob".toList, ⟨.fin 0, .fin 0, .fin 0, .fin 1, .fin 0⟩)],
    by decide!,
    C18_no_duplicate_series.2 goLib
      "1|alice|RUNNING|8|gpu:v100:1|2\n2|alice|PENDING|1|N/A|1\n3|bob|SUSPENDED|1|N/A|1".toList
      _ (by decide!)⟩

end SlurmUsers
